import Mathlib

/-!
# cupti-cpp: the command-line driver `src/main.cpp`

A shallow embedding of `main` (argument parsing, validation, dispatch to the
two collaborators declared in `src/cuda_cupti.h`) and the properties proved
about it.

Conventions of the embedding.

* A command-line token is the list of `char`s of a NUL-terminated C string,
  the terminator left out (`Token`).  `charAt` is the memory read: index
  `length` holds the terminator, anything beyond is outside the object.
* `size_t` is 64 bits wide: a `Nat` reduced modulo `2 ^ 64`.  `int` is 32 bits
  wide: an `Int` in `[-2 ^ 31, 2 ^ 31 - 1]`.
* Undefined behaviour (a read outside a string, an `atoi` result that does not
  fit in `int`) is the result `none`.
-/

namespace CuptiCpp

/-! ## Machine integers -/

/-- Width of `size_t` in bits. -/
def SIZE_BITS : Nat := 64

/-- Number of values of `size_t`. -/
def SIZE_MOD : Nat := 2 ^ SIZE_BITS

/-- Smallest value of `int`. -/
def INT_MIN : Int := -(2 ^ 31)

/-- Largest value of `int`. -/
def INT_MAX : Int := 2 ^ 31 - 1

/-- Conversion of an `int` to `size_t` (value modulo `2 ^ 64`), as in
`num_points = atoi(argv[1])`. -/
def toSizeT (n : Int) : Nat := (n % (SIZE_MOD : Int)).toNat

/-- Multiplication in `size_t`: the product modulo `2 ^ 64`. -/
def mulSizeT (a b : Nat) : Nat := (a * b) % SIZE_MOD

/-- The value of `sizeof(double)`. -/
def sizeof_double : Nat := 8

/-- The value of `EXIT_SUCCESS`. -/
def EXIT_SUCCESS : Int := 0

/-! ## C strings -/

/-- A command-line token: the characters before the terminating NUL. -/
abbrev Token := List Char

/-- The terminating character of a C string. -/
def NUL : Char := Char.ofNat 0

/-- A token is a C string when none of its characters is the terminator. -/
def IsCStr (t : Token) : Prop := ∀ c ∈ t, c ≠ NUL

instance (t : Token) : Decidable (IsCStr t) := by
  unfold IsCStr; exact inferInstance

/-- Read of `t[i]`: the characters, then the terminator at index `length`;
`none` for a read outside the string. -/
def charAt (t : Token) (i : Nat) : Option Char :=
  if i < t.length then t.get? i
  else if i = t.length then some NUL
  else none

/-! ## `atoi` (C standard library) -/

/-- The function `isspace` in the C locale: space, `\t`, `\n`, `\v`, `\f`, `\r`. -/
def isspace (c : Char) : Bool :=
  c.toNat == 32 || (9 ≤ c.toNat && c.toNat ≤ 13)

/-- The function `isdigit`. -/
def isdigit (c : Char) : Bool :=
  48 ≤ c.toNat && c.toNat ≤ 57

/-- Drop the leading white space. -/
def skipSpace : List Char → List Char
  | [] => []
  | c :: cs => if isspace c then skipSpace cs else c :: cs

/-- Value of the longest prefix of decimal digits, continuing from `acc`. -/
def digitsVal (acc : Nat) : List Char → Nat
  | [] => acc
  | c :: cs => if isdigit c then digitsVal (acc * 10 + (c.toNat - 48)) cs else acc

/-- The mathematical value `atoi` converts: white space, an optional sign,
then the longest run of decimal digits (`0` when there is none). -/
def atoiVal (s : List Char) : Int :=
  match skipSpace s with
  | [] => 0
  | c :: cs =>
    if c = '-' then -(digitsVal 0 cs : Int)
    else if c = '+' then (digitsVal 0 cs : Int)
    else (digitsVal 0 (c :: cs) : Int)

/-- The function `atoi`: the converted value when `int` can represent it; the
behaviour is undefined otherwise (`none`). -/
def atoi (s : List Char) : Option Int :=
  let v := atoiVal s
  if INT_MIN ≤ v ∧ v ≤ INT_MAX then some v else none

/-! ## The driver `main` -/

/-- Default number of points (line 8). -/
def NUM_POINTS : Nat := 1024

/-- Default block size (line 9). -/
def BLOCK_SIZE : Nat := 32

/-- Default step size (line 10). -/
def STEP_SIZE : Nat := 1

/-- Default device number (line 11). -/
def DEVICE_NUMBER : Int := 0

/-- The loop `while (0 != *(last_char + 1)) ++last_char;` of lines 22-24, on
the index `i` of `last_char` in `argv[1]`.  One unit of fuel is one evaluation
of the loop condition.  `none`: the condition read outside the string (or the
fuel ran out). -/
def scanLast (t : Token) : Nat → Nat → Option Nat
  | 0, _ => none
  | fuel + 1, i =>
    match charAt t (i + 1) with
    | none => none
    | some c => if c ≠ NUL then scanLast t fuel (i + 1) else some i

/-- Lines 19-31: the value of `num_points` after the points token `argv[1]`
has been read: `atoi`, converted to `size_t`, scaled by the unit suffix found
in the last character. -/
def parse_point_count (t : Token) : Option Nat := do
  let n ← atoi t
  let num_points := toSizeT n
  let last_char ← scanLast t (t.length + 1) 0
  let c ← charAt t last_char
  if c = 'k' ∨ c = 'K' then
    pure (mulSizeT num_points 1024)
  else if c = 'm' ∨ c = 'M' then
    pure (mulSizeT num_points (1024 * 1024))
  else
    pure num_points

/-- Lines 34 and 37: `atoi` stored in a `size_t` (`block_size`, `step_size`). -/
def parse_uint (t : Token) : Option Nat := do
  let n ← atoi t
  pure (toSizeT n)

/-- Line 40: `atoi` stored in the `int` `device_number`. -/
def parse_int (t : Token) : Option Int := atoi t

/-- The four local variables of `main` that make up the configuration. -/
structure RunConfig where
  num_points : Nat
  block_size : Nat
  step_size : Nat
  device_number : Int
  deriving DecidableEq, Repr

/-- Lines 14-41: the locals initialised to the defaults, each overridden by
its token when `argc` says the token is there. -/
def parse_args (argv : List Token) : Option RunConfig := do
  let argc := argv.length
  let num_points ←
    if argc > 1 then (do let t ← argv.get? 1; parse_point_count t) else pure NUM_POINTS
  let block_size ←
    if argc > 2 then (do let t ← argv.get? 2; parse_uint t) else pure BLOCK_SIZE
  let step_size ←
    if argc > 3 then (do let t ← argv.get? 3; parse_uint t) else pure STEP_SIZE
  let device_number ←
    if argc > 4 then (do let t ← argv.get? 4; parse_int t) else pure DEVICE_NUMBER
  pure { num_points, block_size, step_size, device_number }

/-- The condition of line 43. -/
def usageCond (argc : Nat) (c : RunConfig) : Bool :=
  decide (argc > 5) || c.num_points == 0 || c.block_size == 0 || c.step_size == 0
    || decide (c.device_number < 0)

/-- Outcome of parsing and validation. -/
inductive Resolved where
  | UsageFailure
  | Config (c : RunConfig)
  deriving DecidableEq, Repr

/-- Lines 14-43: parse the arguments, then validate them. -/
def resolve (argv : List Token) : Option Resolved := do
  let c ← parse_args argv
  if usageCond argv.length c then pure Resolved.UsageFailure else pure (Resolved.Config c)

/-- One operand inserted into `cout` with `<<`. -/
inductive OutItem where
  | text (s : String)
  | cstr (t : Token)
  | size (n : Nat)
  | int (n : Int)
  deriving DecidableEq, Repr

/-- Observable actions of the driver. -/
inductive Event where
  | cout (item : OutItem)
  | devices_info (total_data_bytes : Nat)
  | run_calculations (num_points block_size step_size : Nat) (dev_num : Int)
  deriving DecidableEq, Repr

/-- A terminated run: what happened, in order, and the exit status. -/
structure Run where
  events : List Event
  status : Int
  deriving DecidableEq, Repr

/-- Lines 44-45: the usage line is written to `cout`, then `exit(EXIT_SUCCESS)`. -/
def usageExit (prog : Token) : Run :=
  { events := [
      Event.cout (OutItem.text "Usage: "),
      Event.cout (OutItem.cstr prog),
      Event.cout (OutItem.text " <number of doubles> <block size> <step size> <device number>\n")],
    status := EXIT_SUCCESS }

/-- Lines 48-57: `devices_info`, the summary written to `cout`,
`run_calculations`, then `return 0`. -/
def dispatch (c : RunConfig) : Run :=
  { events := [
      Event.devices_info (mulSizeT c.num_points sizeof_double),
      Event.cout (OutItem.text "\nRunning calculations on device "),
      Event.cout (OutItem.int c.device_number),
      Event.cout (OutItem.text "\n"),
      Event.cout (OutItem.text "  Points:     "),
      Event.cout (OutItem.size c.num_points),
      Event.cout (OutItem.text "\n"),
      Event.cout (OutItem.text "  Block size: "),
      Event.cout (OutItem.size c.block_size),
      Event.cout (OutItem.text "\n"),
      Event.cout (OutItem.text "  Step size:  "),
      Event.cout (OutItem.size c.step_size),
      Event.cout (OutItem.text "\n"),
      Event.run_calculations c.num_points c.block_size c.step_size c.device_number],
    status := 0 }

/-- The function `main` of `src/main.cpp`; `argc` is the length of `argv`.
The collaborators are taken to return. -/
def main (argv : List Token) : Option Run := do
  match ← resolve argv with
  | Resolved.UsageFailure =>
    let prog ← argv.get? 0
    pure (usageExit prog)
  | Resolved.Config c =>
    pure (dispatch c)

/-! ## The driver over an implementation of `atoi`

The C standard leaves `atoi` undefined on a value that `int` cannot represent;
a C library returns some `int` there.  The definitions below are lines 14-43
again with the conversion function as a parameter `conv`, so that the driver
can be stated over such a library. -/

/-- The function `atoi` as a C library implements it: the value the standard
defines when there is one, and otherwise the value `ovf s` the library
returns for the string `s`. -/
def atoiImpl (ovf : Token → Int) (s : Token) : Option Int :=
  match atoi s with
  | some v => some v
  | none => some (ovf s)

/-- Lines 19-31 with `conv` for `atoi`. -/
def parse_point_count_with (conv : Token → Option Int) (t : Token) : Option Nat := do
  let n ← conv t
  let num_points := toSizeT n
  let last_char ← scanLast t (t.length + 1) 0
  let c ← charAt t last_char
  if c = 'k' ∨ c = 'K' then
    pure (mulSizeT num_points 1024)
  else if c = 'm' ∨ c = 'M' then
    pure (mulSizeT num_points (1024 * 1024))
  else
    pure num_points

/-- Lines 34 and 37 with `conv` for `atoi`. -/
def parse_uint_with (conv : Token → Option Int) (t : Token) : Option Nat := do
  let n ← conv t
  pure (toSizeT n)

/-- Line 40 with `conv` for `atoi`. -/
def parse_int_with (conv : Token → Option Int) (t : Token) : Option Int := conv t

/-- Lines 14-41 with `conv` for `atoi`. -/
def parse_args_with (conv : Token → Option Int) (argv : List Token) : Option RunConfig := do
  let argc := argv.length
  let num_points ←
    if argc > 1 then (do let t ← argv.get? 1; parse_point_count_with conv t)
    else pure NUM_POINTS
  let block_size ←
    if argc > 2 then (do let t ← argv.get? 2; parse_uint_with conv t) else pure BLOCK_SIZE
  let step_size ←
    if argc > 3 then (do let t ← argv.get? 3; parse_uint_with conv t) else pure STEP_SIZE
  let device_number ←
    if argc > 4 then (do let t ← argv.get? 4; parse_int_with conv t) else pure DEVICE_NUMBER
  pure { num_points, block_size, step_size, device_number }

/-- Lines 14-43 with `conv` for `atoi`. -/
def resolve_with (conv : Token → Option Int) (argv : List Token) : Option Resolved := do
  let c ← parse_args_with conv argv
  if usageCond argv.length c then pure Resolved.UsageFailure else pure (Resolved.Config c)

/-! ## Vocabulary of the statements -/

/-- The numeric portion of the token fits in a 32-bit `int`. -/
def FitsInt (t : Token) : Prop := INT_MIN ≤ atoiVal t ∧ atoiVal t ≤ INT_MAX

instance (t : Token) : Decidable (FitsInt t) := by
  unfold FitsInt; exact inferInstance

/-- The factor a last character stands for: `k`/`K` is 1024, `m`/`M` is
1024 * 1024, anything else is 1. -/
def suffixScale (c : Char) : Nat :=
  if c = 'k' ∨ c = 'K' then 1024
  else if c = 'm' ∨ c = 'M' then 1024 * 1024
  else 1

/-- The tokens `main` reads are well formed: the points token is not empty
and the numeric portion of each of the first four tokens fits in `int`. -/
def ArgsOK : List Token → Prop
  | [] => True
  | t :: rest => t ≠ [] ∧ ∀ u ∈ (t :: rest).take 4, FitsInt u

instance : (tokens : List Token) → Decidable (ArgsOK tokens)
  | [] => by unfold ArgsOK; exact inferInstance
  | _ :: _ => by unfold ArgsOK; exact inferInstance

/-- A non-numeric token: after the optional leading white space and an
optional sign it does not begin with a decimal digit. -/
def NonNumeric (t : Token) : Prop :=
  match skipSpace t with
  | [] => True
  | c :: cs =>
    if c = '-' ∨ c = '+' then
      match cs with
      | [] => True
      | d :: _ => isdigit d = false
    else isdigit c = false

instance (t : Token) : Decidable (NonNumeric t) := by
  unfold NonNumeric
  split
  · exact inferInstance
  · split
    · split <;> exact inferInstance
    · exact inferInstance

/-- The resolved value of one field: the default when its positional token
is absent, the parsed token otherwise. -/
def fieldOf {α : Type} (parse : Token → Option α) (dflt : α) : Option Token → Option α
  | none => some dflt
  | some t => parse t

/-- The event is a call of one of the two collaborators. -/
def Event.isCall : Event → Bool
  | Event.cout _ => false
  | Event.devices_info _ => true
  | Event.run_calculations _ _ _ _ => true

/-- A non-empty string of decimal digits. -/
def IsDigits (d : List Char) : Prop := d ≠ [] ∧ ∀ c ∈ d, isdigit c = true

instance (d : List Char) : Decidable (IsDigits d) := by
  unfold IsDigits; exact inferInstance

/-- The number a string of decimal digits denotes. -/
def decValue (d : List Char) : Nat :=
  d.foldl (fun acc c => acc * 10 + (c.toNat - 48)) 0

/-- One of the four unit suffix letters. -/
def IsSuffixLetter (c : Char) : Prop := c = 'k' ∨ c = 'K' ∨ c = 'm' ∨ c = 'M'

instance (c : Char) : Decidable (IsSuffixLetter c) := by
  unfold IsSuffixLetter; exact inferInstance

/-- The loop of lines 22-24 with its bookkeeping: the index of `last_char`,
the number of `++last_char` executed, and the indices of `argv[1]` read by the
loop condition, in order. -/
structure ScanState where
  last_char : Nat
  increments : Nat
  reads : List Nat
  deriving DecidableEq, Repr

/-- The loop `while (0 != *(last_char + 1)) ++last_char;` run on a
`ScanState`: as `scanLast`, every read and every increment recorded. -/
def scanLoop (t : Token) : Nat → ScanState → Option ScanState
  | 0, _ => none
  | fuel + 1, st =>
    match charAt t (st.last_char + 1) with
    | none => none
    | some c =>
      if c ≠ NUL then
        scanLoop t fuel
          { last_char := st.last_char + 1,
            increments := st.increments + 1,
            reads := st.reads ++ [st.last_char + 1] }
      else
        some { st with reads := st.reads ++ [st.last_char + 1] }

/-- The state in which the loop is entered: `last_char = argv[1]`. -/
def scanInit : ScanState := { last_char := 0, increments := 0, reads := [] }

/-- The characters one `<<` writes to the stream. -/
def OutItem.chars : OutItem → List Char
  | OutItem.text s => s.toList
  | OutItem.cstr t => t
  | OutItem.size n => (toString n).toList
  | OutItem.int n => (toString n).toList

/-- The text the events write to standard output. -/
def stdoutText : List Event → List Char
  | [] => []
  | Event.cout item :: es => item.chars ++ stdoutText es
  | _ :: es => stdoutText es

/-! ## Basic facts -/

theorem charAt_of_lt (t : Token) (i : Nat) (h : i < t.length) :
    charAt t i = some (t.get ⟨i, h⟩) := by
  simp [charAt, h, List.getElem?_eq_getElem]

theorem charAt_length (t : Token) : charAt t t.length = some NUL := by
  simp [charAt]

theorem charAt_beyond (t : Token) (i : Nat) (h : t.length < i) : charAt t i = none := by
  have h1 : ¬ i < t.length := by omega
  have h2 : ¬ i = t.length := by omega
  simp [charAt, h1, h2]

theorem atoi_of_fits (t : Token) (h : FitsInt t) : atoi t = some (atoiVal t) := by
  unfold atoi
  simp only []
  exact if_pos h

theorem fits_of_atoi (t : Token) (n : Int) (h : atoi t = some n) :
    FitsInt t ∧ n = atoiVal t := by
  unfold atoi at h
  simp only [] at h
  by_cases hf : INT_MIN ≤ atoiVal t ∧ atoiVal t ≤ INT_MAX
  · rw [if_pos hf] at h
    exact ⟨hf, (Option.some.inj h).symm⟩
  · rw [if_neg hf] at h
    cases h

/-- The scan started inside a C string stops on its last character. -/
theorem scanLast_last (t : Token) (hc : IsCStr t) :
    ∀ (fuel i : Nat), i < t.length → t.length - i ≤ fuel →
      scanLast t fuel i = some (t.length - 1) := by
  intro fuel
  induction fuel with
  | zero => intro i hi hf; omega
  | succ f ih =>
    intro i hi hf
    unfold scanLast
    by_cases hlast : i + 1 = t.length
    · rw [hlast, charAt_length]
      simp
      omega
    · have hlt : i + 1 < t.length := by omega
      rw [charAt_of_lt t (i + 1) hlt]
      have hne : t.get ⟨i + 1, hlt⟩ ≠ NUL := hc _ (List.get_mem t (i + 1) hlt)
      simp only [hne, ne_eq, not_false_eq_true, if_true]
      exact ih (i + 1) hlt (by omega)

/-- The scan started inside a token stops inside it. -/
theorem scanLast_inside (t : Token) :
    ∀ (fuel i : Nat), i < t.length → t.length - i ≤ fuel →
      ∃ j, j < t.length ∧ scanLast t fuel i = some j := by
  intro fuel
  induction fuel with
  | zero => intro i hi hf; omega
  | succ f ih =>
    intro i hi hf
    unfold scanLast
    by_cases hlast : i + 1 = t.length
    · rw [hlast, charAt_length]
      exact ⟨i, hi, by simp⟩
    · have hlt : i + 1 < t.length := by omega
      rw [charAt_of_lt t (i + 1) hlt]
      by_cases hne : t.get ⟨i + 1, hlt⟩ = NUL
      · exact ⟨i, hi, by rw [hne]; simp⟩
      · simp only [hne, ne_eq, not_false_eq_true, if_true]
        exact ih (i + 1) hlt (by omega)

/-- On the empty token the first evaluation of the loop condition reads
outside the string. -/
theorem scanLast_nil (fuel : Nat) : scanLast [] (fuel + 1) 0 = none := by
  simp [scanLast, charAt]

theorem toSizeT_lt (n : Int) : toSizeT n < SIZE_MOD := by
  unfold toSizeT
  have h : (0 : Int) < (SIZE_MOD : Int) := by decide
  have h1 := Int.emod_lt_of_pos n h
  have h2 := Int.emod_nonneg n (ne_of_gt h)
  omega

theorem toSizeT_of_nonneg (n : Int) (h0 : 0 ≤ n) (h1 : n ≤ INT_MAX) :
    toSizeT n = n.toNat := by
  unfold toSizeT
  have : n % (SIZE_MOD : Int) = n := by
    apply Int.emod_eq_of_lt h0
    have : INT_MAX < (SIZE_MOD : Int) := by decide
    omega
  rw [this]

/-- What lines 19-31 compute on a non-empty C string. -/
theorem parse_point_count_eq (t : Token) (n : Int) (hne : t ≠ []) (hc : IsCStr t)
    (hn : atoi t = some n) :
    parse_point_count t = some (mulSizeT (toSizeT n) (suffixScale (t.getLast hne))) := by
  have hlen : 0 < t.length := List.length_pos.mpr hne
  have hscan := scanLast_last t hc (t.length + 1) 0 hlen (by omega)
  have hlt : t.length - 1 < t.length := by omega
  have hch : charAt t (t.length - 1) = some (t.getLast hne) := by
    rw [charAt_of_lt t _ hlt, List.getLast_eq_getElem]
    rfl
  have hlt2 := toSizeT_lt n
  unfold parse_point_count
  simp only [hn, hscan, hch, Option.bind_eq_bind, Option.some_bind, Option.pure_def]
  unfold suffixScale mulSizeT
  by_cases h1 : t.getLast hne = 'k' ∨ t.getLast hne = 'K'
  · simp only [if_pos h1]
  · simp only [if_neg h1]
    by_cases h2 : t.getLast hne = 'm' ∨ t.getLast hne = 'M'
    · simp only [if_pos h2]
    · simp only [if_neg h2, Nat.mul_one]
      rw [Nat.mod_eq_of_lt hlt2]

theorem parse_point_count_defined (t : Token) (hne : t ≠ []) (hf : FitsInt t) :
    ∃ p, parse_point_count t = some p := by
  have hlen : 0 < t.length := List.length_pos.mpr hne
  obtain ⟨j, hj, hscan⟩ := scanLast_inside t (t.length + 1) 0 hlen (by omega)
  unfold parse_point_count
  simp only [atoi_of_fits t hf, hscan, charAt_of_lt t j hj, Option.bind_eq_bind,
    Option.some_bind, Option.pure_def]
  split
  · exact ⟨_, rfl⟩
  · split
    · exact ⟨_, rfl⟩
    · exact ⟨_, rfl⟩

theorem parse_uint_eq (t : Token) (hf : FitsInt t) :
    parse_uint t = some (toSizeT (atoiVal t)) := by
  simp [parse_uint, atoi_of_fits t hf]

theorem parse_int_eq (t : Token) (hf : FitsInt t) : parse_int t = some (atoiVal t) := by
  simp [parse_int, atoi_of_fits t hf]

/-- Lines 14-41 compute each local from its own positional token. -/
theorem parse_args_eq (prog : Token) (tokens : List Token) :
    parse_args (prog :: tokens) =
      (fieldOf parse_point_count NUM_POINTS (tokens.get? 0)).bind fun p =>
      (fieldOf parse_uint BLOCK_SIZE (tokens.get? 1)).bind fun b =>
      (fieldOf parse_uint STEP_SIZE (tokens.get? 2)).bind fun s =>
      (fieldOf parse_int DEVICE_NUMBER (tokens.get? 3)).bind fun d =>
      some { num_points := p, block_size := b, step_size := s, device_number := d } := by
  rcases tokens with _ | ⟨a, _ | ⟨b, _ | ⟨c, _ | ⟨d, rest⟩⟩⟩⟩ <;>
    simp [parse_args, fieldOf]

/-- Well-formed tokens are parsed without undefined behaviour. -/
theorem parse_args_defined (prog : Token) (tokens : List Token) (h : ArgsOK tokens) :
    ∃ c, parse_args (prog :: tokens) = some c := by
  rw [parse_args_eq]
  rcases tokens with _ | ⟨a, rest⟩
  · exact ⟨_, rfl⟩
  · obtain ⟨hne, hfit⟩ := h
    obtain ⟨p, hp⟩ := parse_point_count_defined a hne (hfit a (by simp))
    have hfield : ∀ {α : Type} (f : Token → Option α) (dflt : α) (k : Nat),
        (∀ u, (a :: rest).get? k = some u → ∃ v, f u = some v) →
        ∃ v, fieldOf f dflt ((a :: rest).get? k) = some v := by
      intro α f dflt k hk
      cases hg : (a :: rest).get? k with
      | none => exact ⟨dflt, rfl⟩
      | some u => exact hk u hg
    have hmem : ∀ (k : Nat) (u : Token), k < 4 → (a :: rest).get? k = some u → FitsInt u := by
      intro k u hk hu
      apply hfit u
      rw [List.mem_iff_get?]
      refine ⟨k, ?_⟩
      rw [List.get?_eq_getElem?, List.getElem?_take_of_lt hk, ← List.get?_eq_getElem?]
      exact hu
    obtain ⟨b, hb⟩ := hfield parse_uint BLOCK_SIZE 1
      (fun u hu => ⟨_, parse_uint_eq u (hmem 1 u (by omega) hu)⟩)
    obtain ⟨s, hs⟩ := hfield parse_uint STEP_SIZE 2
      (fun u hu => ⟨_, parse_uint_eq u (hmem 2 u (by omega) hu)⟩)
    obtain ⟨d, hd⟩ := hfield parse_int DEVICE_NUMBER 3
      (fun u hu => ⟨_, parse_int_eq u (hmem 3 u (by omega) hu)⟩)
    have h0 : fieldOf parse_point_count NUM_POINTS ((a :: rest).get? 0) = some p := by
      simpa [fieldOf] using hp
    rw [h0, hb, hs, hd]
    exact ⟨_, rfl⟩

/-- The locals after line 41 are the resolved values of the four fields. -/
theorem parse_args_fields (prog : Token) (tokens : List Token) (c : RunConfig)
    (h : parse_args (prog :: tokens) = some c) :
    fieldOf parse_point_count NUM_POINTS (tokens.get? 0) = some c.num_points ∧
    fieldOf parse_uint BLOCK_SIZE (tokens.get? 1) = some c.block_size ∧
    fieldOf parse_uint STEP_SIZE (tokens.get? 2) = some c.step_size ∧
    fieldOf parse_int DEVICE_NUMBER (tokens.get? 3) = some c.device_number := by
  rw [parse_args_eq] at h
  cases hp : fieldOf parse_point_count NUM_POINTS (tokens.get? 0) with
  | none => rw [hp] at h; cases h
  | some p =>
    cases hb : fieldOf parse_uint BLOCK_SIZE (tokens.get? 1) with
    | none => rw [hp, hb] at h; cases h
    | some b =>
      cases hs : fieldOf parse_uint STEP_SIZE (tokens.get? 2) with
      | none => rw [hp, hb, hs] at h; cases h
      | some s =>
        cases hd : fieldOf parse_int DEVICE_NUMBER (tokens.get? 3) with
        | none => rw [hp, hb, hs, hd] at h; cases h
        | some d =>
          rw [hp, hb, hs, hd] at h
          simp only [Option.some_bind, Option.some.injEq] at h
          subst h
          exact ⟨rfl, rfl, rfl, rfl⟩

theorem usageCond_iff (argc : Nat) (c : RunConfig) :
    usageCond argc c = true ↔
      (argc > 5 ∨ c.num_points = 0 ∨ c.block_size = 0 ∨ c.step_size = 0
        ∨ c.device_number < 0) := by
  simp [usageCond, or_assoc]

theorem resolve_of_parse_args (argv : List Token) (c : RunConfig)
    (h : parse_args argv = some c) :
    resolve argv =
      some (if usageCond argv.length c then Resolved.UsageFailure else Resolved.Config c) := by
  unfold resolve
  simp only [h, Option.bind_eq_bind, Option.some_bind, Option.pure_def]
  split <;> rfl

theorem argsOK_of_forall (tokens : List Token) (h : ∀ t ∈ tokens, t ≠ [] ∧ FitsInt t) :
    ArgsOK tokens := by
  rcases tokens with _ | ⟨a, rest⟩
  · trivial
  · exact ⟨(h a (by simp)).1, fun u hu => (h u (List.mem_of_mem_take hu)).2⟩

theorem resolve_cases (argv : List Token) (x : Resolved) (h : resolve argv = some x) :
    ∃ c, parse_args argv = some c ∧
      ((usageCond argv.length c = true ∧ x = Resolved.UsageFailure) ∨
       (usageCond argv.length c = false ∧ x = Resolved.Config c)) := by
  cases hc : parse_args argv with
  | none => simp [resolve, hc] at h
  | some c =>
    refine ⟨c, rfl, ?_⟩
    rw [resolve_of_parse_args argv c hc] at h
    by_cases hu : usageCond argv.length c = true
    · rw [if_pos hu] at h
      exact Or.inl ⟨hu, (Option.some.inj h).symm⟩
    · rw [if_neg hu] at h
      exact Or.inr ⟨by simpa using hu, (Option.some.inj h).symm⟩

theorem resolve_defined (prog : Token) (tokens : List Token) (h : ArgsOK tokens) :
    ∃ x, resolve (prog :: tokens) = some x := by
  obtain ⟨c, hc⟩ := parse_args_defined prog tokens h
  exact ⟨_, resolve_of_parse_args _ c hc⟩

theorem main_of_usage (prog : Token) (tokens : List Token)
    (h : resolve (prog :: tokens) = some Resolved.UsageFailure) :
    main (prog :: tokens) = some (usageExit prog) := by
  simp [main, h]

theorem main_of_config (argv : List Token) (c : RunConfig)
    (h : resolve argv = some (Resolved.Config c)) :
    main argv = some (dispatch c) := by
  simp [main, h]

theorem digitsVal_of_not_digit (acc : Nat) (c : Char) (cs : List Char)
    (h : isdigit c = false) : digitsVal acc (c :: cs) = acc := by
  simp [digitsVal, h]

/-- A non-numeric token converts to 0. -/
theorem atoiVal_of_nonNumeric (t : Token) (h : NonNumeric t) : atoiVal t = 0 := by
  unfold NonNumeric at h
  unfold atoiVal
  cases hs : skipSpace t with
  | nil => rfl
  | cons c cs =>
    rw [hs] at h
    simp only at h ⊢
    by_cases hm : c = '-'
    · rw [if_pos (Or.inl hm)] at h
      rw [if_pos hm]
      cases cs with
      | nil => rfl
      | cons d ds =>
        simp only at h
        rw [digitsVal_of_not_digit 0 d ds h]
        rfl
    · rw [if_neg hm]
      by_cases hp : c = '+'
      · rw [if_pos (Or.inr hp)] at h
        rw [if_pos hp]
        cases cs with
        | nil => rfl
        | cons d ds =>
          simp only at h
          rw [digitsVal_of_not_digit 0 d ds h]
          rfl
      · have hno : ¬ (c = '-' ∨ c = '+') := by
          rintro (h1 | h1)
          · exact hm h1
          · exact hp h1
        rw [if_neg hno] at h
        rw [if_neg hp, digitsVal_of_not_digit 0 c cs h]
        rfl

theorem resolve_usage_of_zero (prog : Token) (tokens : List Token) (c : RunConfig)
    (hc : parse_args (prog :: tokens) = some c)
    (hz : c.num_points = 0 ∨ c.block_size = 0 ∨ c.step_size = 0) :
    resolve (prog :: tokens) = some Resolved.UsageFailure := by
  have hu : usageCond (prog :: tokens).length c = true := by
    rw [usageCond_iff]
    rcases hz with hz | hz | hz
    · exact Or.inr (Or.inl hz)
    · exact Or.inr (Or.inr (Or.inl hz))
    · exact Or.inr (Or.inr (Or.inr (Or.inl hz)))
  rw [resolve_of_parse_args _ c hc, if_pos hu]

/-! ## The driver over an implementation of `atoi`: basic facts -/

/-- With the standard's `atoi` the parametrised driver is `resolve`. -/
theorem resolve_with_atoi (argv : List Token) : resolve_with atoi argv = resolve argv := rfl

theorem parse_args_with_atoi (argv : List Token) :
    parse_args_with atoi argv = parse_args argv := rfl

/-- A library's `atoi` returns the standard's value where there is one. -/
theorem atoiImpl_of_atoi (ovf : Token → Int) (t : Token) (n : Int) (h : atoi t = some n) :
    atoiImpl ovf t = some n := by
  simp [atoiImpl, h]

/-- A library's `atoi` returns on every string. -/
theorem atoiImpl_total (ovf : Token → Int) (t : Token) : ∃ n, atoiImpl ovf t = some n := by
  unfold atoiImpl
  cases atoi t with
  | none => exact ⟨_, rfl⟩
  | some v => exact ⟨_, rfl⟩

theorem parse_uint_with_total (ovf : Token → Int) (t : Token) :
    ∃ v, parse_uint_with (atoiImpl ovf) t = some v := by
  obtain ⟨n, hn⟩ := atoiImpl_total ovf t
  exact ⟨toSizeT n, by simp [parse_uint_with, hn]⟩

theorem parse_int_with_total (ovf : Token → Int) (t : Token) :
    ∃ v, parse_int_with (atoiImpl ovf) t = some v :=
  atoiImpl_total ovf t

theorem parse_args_with_eq (conv : Token → Option Int) (prog : Token)
    (tokens : List Token) :
    parse_args_with conv (prog :: tokens) =
      (fieldOf (parse_point_count_with conv) NUM_POINTS (tokens.get? 0)).bind fun p =>
      (fieldOf (parse_uint_with conv) BLOCK_SIZE (tokens.get? 1)).bind fun b =>
      (fieldOf (parse_uint_with conv) STEP_SIZE (tokens.get? 2)).bind fun s =>
      (fieldOf (parse_int_with conv) DEVICE_NUMBER (tokens.get? 3)).bind fun d =>
      some { num_points := p, block_size := b, step_size := s, device_number := d } := by
  rcases tokens with _ | ⟨a, _ | ⟨b, _ | ⟨c, _ | ⟨d, rest⟩⟩⟩⟩ <;>
    simp [parse_args_with, fieldOf]

theorem fieldOf_total {α : Type} (f : Token → Option α) (dflt : α) (tok : Option Token)
    (h : ∀ t, ∃ v, f t = some v) : ∃ v, fieldOf f dflt tok = some v := by
  cases tok with
  | none => exact ⟨dflt, rfl⟩
  | some t => exact h t

theorem resolve_with_of_parse_args (conv : Token → Option Int) (argv : List Token)
    (c : RunConfig) (h : parse_args_with conv argv = some c) :
    resolve_with conv argv =
      some (if usageCond argv.length c then Resolved.UsageFailure else Resolved.Config c) := by
  unfold resolve_with
  simp only [h, Option.bind_eq_bind, Option.some_bind, Option.pure_def]
  split <;> rfl

/-- Where the standard defines the conversions, the parse over a library's
`atoi` gives the same configuration. -/
theorem parse_point_count_with_of (conv : Token → Option Int)
    (hext : ∀ t n, atoi t = some n → conv t = some n) (t : Token) (p : Nat)
    (h : parse_point_count t = some p) : parse_point_count_with conv t = some p := by
  unfold parse_point_count at h
  unfold parse_point_count_with
  cases ha : atoi t with
  | none => simp [ha] at h
  | some n =>
    rw [ha] at h
    rw [hext t n ha]
    exact h

theorem parse_uint_with_of (conv : Token → Option Int)
    (hext : ∀ t n, atoi t = some n → conv t = some n) (t : Token) (v : Nat)
    (h : parse_uint t = some v) : parse_uint_with conv t = some v := by
  unfold parse_uint at h
  unfold parse_uint_with
  cases ha : atoi t with
  | none => simp [ha] at h
  | some n =>
    rw [ha] at h
    rw [hext t n ha]
    exact h

theorem fieldOf_mono {α : Type} (f g : Token → Option α) (dflt v : α) (tok : Option Token)
    (hfg : ∀ t w, f t = some w → g t = some w) (h : fieldOf f dflt tok = some v) :
    fieldOf g dflt tok = some v := by
  cases tok with
  | none => exact h
  | some t => exact hfg t v h

theorem resolve_with_of_resolve (conv : Token → Option Int)
    (hext : ∀ t n, atoi t = some n → conv t = some n) (prog : Token) (tokens : List Token)
    (x : Resolved) (h : resolve (prog :: tokens) = some x) :
    resolve_with conv (prog :: tokens) = some x := by
  obtain ⟨c, hc, hcase⟩ := resolve_cases _ x h
  obtain ⟨fp, fb, fs, fd⟩ := parse_args_fields prog tokens c hc
  have hc2 : parse_args_with conv (prog :: tokens) = some c := by
    rw [parse_args_with_eq,
      fieldOf_mono _ _ _ _ _ (parse_point_count_with_of conv hext) fp,
      fieldOf_mono _ _ _ _ _ (parse_uint_with_of conv hext) fb,
      fieldOf_mono _ _ _ _ _ (parse_uint_with_of conv hext) fs,
      fieldOf_mono parse_int (parse_int_with conv) _ _ _ hext fd]
    rfl
  rw [resolve_with_of_parse_args conv _ c hc2]
  rcases hcase with ⟨hu, hx⟩ | ⟨hu, hx⟩
  · rw [hu, hx]
    rfl
  · rw [hu, hx]
    rfl

/-! ## Properties of the driver -/

/-- C1: for a program name followed by well-formed tokens, `resolve` returns,
and with `p`, `b`, `s`, `d` the resolved (parsed or defaulted) values of the
four fields it yields `UsageFailure` exactly when more than 4 tokens were
supplied or `p = 0` or `b = 0` or `s = 0` or `d < 0`; in every other case it
yields the configuration holding exactly `p`, `b`, `s`, `d`. -/
theorem resolve_usage_iff (prog : Token) (tokens : List Token) (h : ArgsOK tokens) :
    ∃ (p b s : Nat) (d : Int),
      fieldOf parse_point_count NUM_POINTS (tokens.get? 0) = some p ∧
      fieldOf parse_uint BLOCK_SIZE (tokens.get? 1) = some b ∧
      fieldOf parse_uint STEP_SIZE (tokens.get? 2) = some s ∧
      fieldOf parse_int DEVICE_NUMBER (tokens.get? 3) = some d ∧
      (resolve (prog :: tokens) = some Resolved.UsageFailure ↔
        (4 < tokens.length ∨ p = 0 ∨ b = 0 ∨ s = 0 ∨ d < 0)) ∧
      (¬ (4 < tokens.length ∨ p = 0 ∨ b = 0 ∨ s = 0 ∨ d < 0) →
        resolve (prog :: tokens) = some (Resolved.Config
          { num_points := p, block_size := b, step_size := s, device_number := d })) := by
  obtain ⟨c, hc⟩ := parse_args_defined prog tokens h
  obtain ⟨hp, hb, hs, hd⟩ := parse_args_fields prog tokens c hc
  have hres := resolve_of_parse_args (prog :: tokens) c hc
  have hcond := usageCond_iff (prog :: tokens).length c
  have hlen : (prog :: tokens).length > 5 ↔ 4 < tokens.length := by
    simp only [List.length_cons]; omega
  rw [hlen] at hcond
  refine ⟨c.num_points, c.block_size, c.step_size, c.device_number, hp, hb, hs, hd, ?_, ?_⟩
  · rw [hres, ← hcond]
    by_cases hu : usageCond (prog :: tokens).length c = true
    · simp [hu]
    · simp [hu]
  · intro hn
    rw [← hcond] at hn
    rw [hres, if_neg hn]

/-- C1, at the tokens `1024 32 1 0 extra`. -/
theorem resolve_usage_iff_witness :
    ArgsOK ["1024".toList, "32".toList, "1".toList, "0".toList, "extra".toList] ∧
    ∃ (p b s : Nat) (d : Int),
      fieldOf parse_point_count NUM_POINTS
        (["1024".toList, "32".toList, "1".toList, "0".toList, "extra".toList].get? 0) = some p ∧
      fieldOf parse_uint BLOCK_SIZE
        (["1024".toList, "32".toList, "1".toList, "0".toList, "extra".toList].get? 1) = some b ∧
      fieldOf parse_uint STEP_SIZE
        (["1024".toList, "32".toList, "1".toList, "0".toList, "extra".toList].get? 2) = some s ∧
      fieldOf parse_int DEVICE_NUMBER
        (["1024".toList, "32".toList, "1".toList, "0".toList, "extra".toList].get? 3) = some d ∧
      (resolve ("cupti".toList ::
          ["1024".toList, "32".toList, "1".toList, "0".toList, "extra".toList])
          = some Resolved.UsageFailure ↔
        (4 < ["1024".toList, "32".toList, "1".toList, "0".toList, "extra".toList].length
          ∨ p = 0 ∨ b = 0 ∨ s = 0 ∨ d < 0)) ∧
      (¬ (4 < ["1024".toList, "32".toList, "1".toList, "0".toList, "extra".toList].length
          ∨ p = 0 ∨ b = 0 ∨ s = 0 ∨ d < 0) →
        resolve ("cupti".toList ::
          ["1024".toList, "32".toList, "1".toList, "0".toList, "extra".toList])
          = some (Resolved.Config
            { num_points := p, block_size := b, step_size := s, device_number := d })) :=
  ⟨by decide,
   resolve_usage_iff "cupti".toList
     ["1024".toList, "32".toList, "1".toList, "0".toList, "extra".toList] (by decide)⟩

/-- C2 (as amended): for every non-empty points token whose leading base-10
integer `n`, as `atoi` reads it, is not negative, `parse_point_count` is
`n * 1024` when the last character is `k` or `K`, `n * 1024 * 1024` when it is
`m` or `M`, and `n` otherwise; and on `4k`, `2m`, `100`, `k` it is 4096,
2097152, 100, 0. -/
theorem parse_point_count_scaled (t : Token) (n : Nat) (hne : t ≠ []) (hc : IsCStr t)
    (hn : atoi t = some (n : Int)) :
    ((t.getLast hne = 'k' ∨ t.getLast hne = 'K') →
      parse_point_count t = some (n * 1024)) ∧
    ((t.getLast hne = 'm' ∨ t.getLast hne = 'M') →
      parse_point_count t = some (n * 1024 * 1024)) ∧
    (¬ (t.getLast hne = 'k' ∨ t.getLast hne = 'K') →
      ¬ (t.getLast hne = 'm' ∨ t.getLast hne = 'M') →
      parse_point_count t = some n) ∧
    parse_point_count "4k".toList = some 4096 ∧
    parse_point_count "2m".toList = some 2097152 ∧
    parse_point_count "100".toList = some 100 ∧
    parse_point_count "k".toList = some 0 := by
  have heq := parse_point_count_eq t (n : Int) hne hc hn
  obtain ⟨hfit, hval⟩ := fits_of_atoi t (n : Int) hn
  have hmax : (n : Int) ≤ INT_MAX := by rw [hval]; exact hfit.2
  have hsz : toSizeT (n : Int) = n := by
    rw [toSizeT_of_nonneg (n : Int) (Int.ofNat_nonneg n) hmax]
    simp
  have hbound : n < 2 ^ 31 := by
    unfold INT_MAX at hmax
    omega
  rw [hsz] at heq
  refine ⟨?_, ?_, ?_, by decide, by decide, by decide, by decide⟩
  · intro hk
    rw [heq]
    simp only [suffixScale, if_pos hk, mulSizeT, SIZE_MOD, SIZE_BITS]
    congr 1
    omega
  · intro hm
    have hk : ¬ (t.getLast hne = 'k' ∨ t.getLast hne = 'K') := by
      rintro (hk | hk) <;> rcases hm with hm | hm <;> rw [hk] at hm <;> revert hm <;> decide
    rw [heq]
    simp only [suffixScale, if_neg hk, if_pos hm, mulSizeT, SIZE_MOD, SIZE_BITS]
    congr 1
    omega
  · intro hk hm
    rw [heq]
    simp only [suffixScale, if_neg hk, if_neg hm, mulSizeT, SIZE_MOD, SIZE_BITS]
    congr 1
    omega

/-- C2 (as amended), at the token `12K`. -/
theorem parse_point_count_scaled_witness :
    "12K".toList ≠ [] ∧ IsCStr "12K".toList ∧ atoi "12K".toList = some ((12 : Nat) : Int) ∧
    parse_point_count "12K".toList = some (12 * 1024) :=
  ⟨by decide, by decide, by decide,
   (parse_point_count_scaled "12K".toList 12 (by decide) (by decide) (by decide)).1
     (Or.inr (by decide))⟩

/-- C2 (as stated) fails at the token `-1k`: its leading integer is -1, its
last character is `k`, and `parse_point_count` is 2^64 - 1024, which is
neither -1 * 1024 nor 0 * 1024. -/
theorem parse_point_count_negative_token :
    ¬ (∀ (t : Token) (n : Int) (hne : t ≠ []), IsCStr t → atoi t = some n →
        (t.getLast hne = 'k' ∨ t.getLast hne = 'K') →
        (parse_point_count t).map Int.ofNat = some (n * 1024)) ∧
    atoi "-1k".toList = some (-1) ∧
    parse_point_count "-1k".toList = some 18446744073709550592 := by
  refine ⟨?_, by decide, by decide⟩
  intro h
  have h1 := h "-1k".toList (-1) (by decide) (by decide) (by decide) (Or.inl (by decide))
  revert h1
  decide

/-- C3: for a program name followed by well-formed tokens the parse returns,
each field whose positional token is absent has its default (1024, 32, 1, 0),
each field whose token is present has the parsed value of that token, `resolve`
yields either `UsageFailure` or exactly these fields, and without any token
`resolve` succeeds with the configuration 1024, 32, 1, 0. -/
theorem defaults_for_absent_tokens (prog : Token) (tokens : List Token)
    (h : ArgsOK tokens) :
    ∃ c, parse_args (prog :: tokens) = some c ∧
      (tokens.length < 1 → c.num_points = 1024) ∧
      (tokens.length < 2 → c.block_size = 32) ∧
      (tokens.length < 3 → c.step_size = 1) ∧
      (tokens.length < 4 → c.device_number = 0) ∧
      (∀ t, tokens.get? 0 = some t → parse_point_count t = some c.num_points) ∧
      (∀ t, tokens.get? 1 = some t → parse_uint t = some c.block_size) ∧
      (∀ t, tokens.get? 2 = some t → parse_uint t = some c.step_size) ∧
      (∀ t, tokens.get? 3 = some t → parse_int t = some c.device_number) ∧
      (resolve (prog :: tokens) = some Resolved.UsageFailure ∨
        resolve (prog :: tokens) = some (Resolved.Config c)) ∧
      resolve [prog] = some (Resolved.Config
        { num_points := 1024, block_size := 32, step_size := 1, device_number := 0 }) := by
  obtain ⟨c, hc⟩ := parse_args_defined prog tokens h
  obtain ⟨hp, hb, hs, hd⟩ := parse_args_fields prog tokens c hc
  have habsent : ∀ {α : Type} (f : Token → Option α) (dflt v : α) (k : Nat),
      fieldOf f dflt (tokens.get? k) = some v → tokens.length < k + 1 → v = dflt := by
    intro α f dflt v k hv hk
    have hnone : tokens.get? k = none := List.get?_eq_none.mpr (by omega)
    rw [hnone] at hv
    exact (Option.some.inj hv).symm
  have hpresent : ∀ {α : Type} (f : Token → Option α) (dflt v : α) (k : Nat),
      fieldOf f dflt (tokens.get? k) = some v → ∀ t, tokens.get? k = some t → f t = some v := by
    intro α f dflt v k hv t ht
    rw [ht] at hv
    exact hv
  refine ⟨c, hc, ?_, ?_, ?_, ?_, hpresent _ _ _ 0 hp, hpresent _ _ _ 1 hb,
    hpresent _ _ _ 2 hs, hpresent _ _ _ 3 hd, ?_, rfl⟩
  · exact fun hk => habsent _ _ _ 0 hp hk
  · exact fun hk => habsent _ _ _ 1 hb hk
  · exact fun hk => habsent _ _ _ 2 hs hk
  · exact fun hk => habsent _ _ _ 3 hd hk
  · rw [resolve_of_parse_args _ c hc]
    by_cases hu : usageCond (prog :: tokens).length c = true
    · exact Or.inl (by rw [if_pos hu])
    · exact Or.inr (by rw [if_neg hu])

/-- C3, at the tokens `4k 64`. -/
theorem defaults_for_absent_tokens_witness :
    ArgsOK ["4k".toList, "64".toList] ∧
    ∃ c, parse_args ("cupti".toList :: ["4k".toList, "64".toList]) = some c ∧
      (["4k".toList, "64".toList].length < 1 → c.num_points = 1024) ∧
      (["4k".toList, "64".toList].length < 2 → c.block_size = 32) ∧
      (["4k".toList, "64".toList].length < 3 → c.step_size = 1) ∧
      (["4k".toList, "64".toList].length < 4 → c.device_number = 0) ∧
      (∀ t, ["4k".toList, "64".toList].get? 0 = some t →
        parse_point_count t = some c.num_points) ∧
      (∀ t, ["4k".toList, "64".toList].get? 1 = some t → parse_uint t = some c.block_size) ∧
      (∀ t, ["4k".toList, "64".toList].get? 2 = some t → parse_uint t = some c.step_size) ∧
      (∀ t, ["4k".toList, "64".toList].get? 3 = some t →
        parse_int t = some c.device_number) ∧
      (resolve ("cupti".toList :: ["4k".toList, "64".toList]) = some Resolved.UsageFailure ∨
        resolve ("cupti".toList :: ["4k".toList, "64".toList]) = some (Resolved.Config c)) ∧
      resolve ["cupti".toList] = some (Resolved.Config
        { num_points := 1024, block_size := 32, step_size := 1, device_number := 0 }) :=
  ⟨by decide,
   defaults_for_absent_tokens "cupti".toList ["4k".toList, "64".toList] (by decide)⟩

/-- C4: when `resolve` succeeds with the configuration `p`, `b`, `s`, `d`,
`main` returns and its calls of the collaborators are, in order, one call of
`devices_info` and then one call of `run_calculations` with the arguments
`p`, `b`, `s`, `d`; for the tokens `1024 32 1 0` the calls are
`devices_info(8192)` then `run_calculations(1024, 32, 1, 0)`. -/
theorem dispatch_calls (argv : List Token) (p b s : Nat) (d : Int)
    (h : resolve argv = some (Resolved.Config
      { num_points := p, block_size := b, step_size := s, device_number := d })) :
    (∃ r, main argv = some r ∧
      r.events.filter Event.isCall =
        [Event.devices_info (mulSizeT p sizeof_double), Event.run_calculations p b s d]) ∧
    (∀ prog : Token,
      (main [prog, "1024".toList, "32".toList, "1".toList, "0".toList]).map
          (fun r => r.events.filter Event.isCall) =
        some [Event.devices_info 8192, Event.run_calculations 1024 32 1 0]) := by
  refine ⟨⟨_, main_of_config argv _ h, rfl⟩, ?_⟩
  intro prog
  have hr : resolve [prog, "1024".toList, "32".toList, "1".toList, "0".toList] =
      some (Resolved.Config
        { num_points := 1024, block_size := 32, step_size := 1, device_number := 0 }) := by
    have hc : parse_args [prog, "1024".toList, "32".toList, "1".toList, "0".toList] =
        some { num_points := 1024, block_size := 32, step_size := 1, device_number := 0 } := by
      rw [parse_args_eq]
      rfl
    rw [resolve_of_parse_args _ _ hc]
    rfl
  rw [main_of_config _ _ hr]
  rfl

/-- C4, at the tokens `2m 128 4 1`. -/
theorem dispatch_calls_witness :
    resolve ["cupti".toList, "2m".toList, "128".toList, "4".toList, "1".toList] =
      some (Resolved.Config
        { num_points := 2097152, block_size := 128, step_size := 4, device_number := 1 }) ∧
    ∃ r, main ["cupti".toList, "2m".toList, "128".toList, "4".toList, "1".toList] = some r ∧
      r.events.filter Event.isCall =
        [Event.devices_info (mulSizeT 2097152 sizeof_double),
         Event.run_calculations 2097152 128 4 1] :=
  ⟨by decide,
   (dispatch_calls ["cupti".toList, "2m".toList, "128".toList, "4".toList, "1".toList]
     2097152 128 4 1 (by decide)).1⟩

/-- C5 fails at the single token `-3`: `resolve` succeeds with the point count
2^64 - 3, and `devices_info` receives 2^64 - 24, which is the product of the
point count and 8 reduced modulo 2^64 and not the product itself. -/
theorem devices_info_bytes_wrap :
    resolve ["cupti".toList, "-3".toList] = some (Resolved.Config
      { num_points := 18446744073709551613, block_size := 32, step_size := 1,
        device_number := 0 }) ∧
    (main ["cupti".toList, "-3".toList]).map (fun r => r.events.filter Event.isCall) =
      some [Event.devices_info 18446744073709551592,
            Event.run_calculations 18446744073709551613 32 1 0] ∧
    (18446744073709551592 : Nat) ≠ 18446744073709551613 * 8 := by
  decide

/-- C6: for a program name followed by well-formed tokens `main` returns a
run; when validation failed the run is the usage line and the exit, with no
call of a collaborator; and when the run holds a call of a collaborator, at
most 4 tokens were supplied, `resolve` succeeded with a point count, block
size and step size that are not 0 and a device number that is not negative,
and every `run_calculations` call carries exactly these values. -/
theorem no_call_without_validation (prog : Token) (tokens : List Token)
    (h : ArgsOK tokens) :
    ∃ r, main (prog :: tokens) = some r ∧
      (resolve (prog :: tokens) = some Resolved.UsageFailure →
        r = usageExit prog ∧ ∀ e ∈ r.events, e.isCall = false) ∧
      ((∃ e ∈ r.events, e.isCall = true) →
        ∃ c, resolve (prog :: tokens) = some (Resolved.Config c) ∧
          tokens.length ≤ 4 ∧ c.num_points ≠ 0 ∧ c.block_size ≠ 0 ∧ c.step_size ≠ 0 ∧
          0 ≤ c.device_number ∧
          ∀ p b s d, Event.run_calculations p b s d ∈ r.events →
            p = c.num_points ∧ b = c.block_size ∧ s = c.step_size ∧
            d = c.device_number) := by
  obtain ⟨x, hx⟩ := resolve_defined prog tokens h
  obtain ⟨c, hc, hcase⟩ := resolve_cases _ x hx
  have hnocall : ∀ e ∈ (usageExit prog).events, e.isCall = false := by
    intro e he
    simp only [usageExit, List.mem_cons, List.mem_singleton, List.not_mem_nil, or_false] at he
    rcases he with he | he | he <;> rw [he] <;> rfl
  rcases hcase with ⟨_, hxu⟩ | ⟨hu, hxc⟩
  · subst hxu
    refine ⟨usageExit prog, main_of_usage prog tokens hx, fun _ => ⟨rfl, hnocall⟩, ?_⟩
    rintro ⟨e, he, hcall⟩
    rw [hnocall e he] at hcall
    cases hcall
  · subst hxc
    refine ⟨dispatch c, main_of_config _ c hx, ?_, ?_⟩
    · intro hus
      rw [hx] at hus
      cases hus
    · intro _
      have hn : ¬ usageCond (prog :: tokens).length c = true := by
        rw [hu]
        exact Bool.false_ne_true
      rw [usageCond_iff] at hn
      simp only [List.length_cons, not_or] at hn
      obtain ⟨h1, h2, h3, h4, h5⟩ := hn
      refine ⟨c, hx, by omega, h2, h3, h4, by omega, ?_⟩
      intro p b s d hmem
      simp [dispatch] at hmem
      exact hmem

/-- C6, at the tokens `0 32 1 0`. -/
theorem no_call_without_validation_witness :
    ArgsOK ["0".toList, "32".toList, "1".toList, "0".toList] ∧
    ∃ r, main ("cupti".toList :: ["0".toList, "32".toList, "1".toList, "0".toList]) = some r ∧
      (resolve ("cupti".toList :: ["0".toList, "32".toList, "1".toList, "0".toList])
          = some Resolved.UsageFailure →
        r = usageExit "cupti".toList ∧ ∀ e ∈ r.events, e.isCall = false) ∧
      ((∃ e ∈ r.events, e.isCall = true) →
        ∃ c, resolve ("cupti".toList :: ["0".toList, "32".toList, "1".toList, "0".toList])
            = some (Resolved.Config c) ∧
          ["0".toList, "32".toList, "1".toList, "0".toList].length ≤ 4 ∧
          c.num_points ≠ 0 ∧ c.block_size ≠ 0 ∧ c.step_size ≠ 0 ∧
          0 ≤ c.device_number ∧
          ∀ p b s d, Event.run_calculations p b s d ∈ r.events →
            p = c.num_points ∧ b = c.block_size ∧ s = c.step_size ∧
            d = c.device_number) :=
  ⟨by decide,
   no_call_without_validation "cupti".toList
     ["0".toList, "32".toList, "1".toList, "0".toList] (by decide)⟩

/-- C7: when the first token is the single character `k`, `K`, `m` or `M`,
its numeric value is 0, the scaled point count is 0, and `resolve` yields
`UsageFailure` whatever tokens follow: with any C library's `atoi`
(`ovf` is what it returns where the standard defines no value) the outcome is
`UsageFailure` for every list `rest` of following tokens; `resolve` over the
standard's `atoi` has no other outcome, and has this one when the conversions
of the following tokens are defined. -/
theorem suffix_only_token_rejected (ovf : Token → Int) (prog : Token) (ch : Char)
    (rest : List Token) (hch : ch = 'k' ∨ ch = 'K' ∨ ch = 'm' ∨ ch = 'M') :
    atoi [ch] = some 0 ∧ parse_point_count [ch] = some 0 ∧
    atoiImpl ovf [ch] = some 0 ∧ parse_point_count_with (atoiImpl ovf) [ch] = some 0 ∧
    resolve_with (atoiImpl ovf) (prog :: [ch] :: rest) = some Resolved.UsageFailure ∧
    (∀ x, resolve (prog :: [ch] :: rest) = some x → x = Resolved.UsageFailure) ∧
    ((∀ u ∈ rest.take 3, FitsInt u) →
      resolve (prog :: [ch] :: rest) = some Resolved.UsageFailure) := by
  have hparse : atoi [ch] = some 0 ∧ parse_point_count [ch] = some 0 := by
    rcases hch with h | h | h | h <;> subst h <;> exact ⟨by decide, by decide⟩
  have hconv : atoiImpl ovf [ch] = some 0 := atoiImpl_of_atoi ovf [ch] 0 hparse.1
  have hpc : parse_point_count_with (atoiImpl ovf) [ch] = some 0 :=
    parse_point_count_with_of _ (atoiImpl_of_atoi ovf) [ch] 0 hparse.2
  have hwith : resolve_with (atoiImpl ovf) (prog :: [ch] :: rest)
      = some Resolved.UsageFailure := by
    obtain ⟨b, hb⟩ := fieldOf_total (parse_uint_with (atoiImpl ovf)) BLOCK_SIZE
      (([ch] :: rest).get? 1) (parse_uint_with_total ovf)
    obtain ⟨s, hs⟩ := fieldOf_total (parse_uint_with (atoiImpl ovf)) STEP_SIZE
      (([ch] :: rest).get? 2) (parse_uint_with_total ovf)
    obtain ⟨d, hd⟩ := fieldOf_total (parse_int_with (atoiImpl ovf)) DEVICE_NUMBER
      (([ch] :: rest).get? 3) (parse_int_with_total ovf)
    have hp : fieldOf (parse_point_count_with (atoiImpl ovf)) NUM_POINTS
        (([ch] :: rest).get? 0) = some 0 := hpc
    have hc : parse_args_with (atoiImpl ovf) (prog :: [ch] :: rest) =
        some { num_points := 0, block_size := b, step_size := s, device_number := d } := by
      rw [parse_args_with_eq, hp, hb, hs, hd]
      rfl
    have hu : usageCond (prog :: [ch] :: rest).length
        { num_points := 0, block_size := b, step_size := s, device_number := d } = true := by
      rw [usageCond_iff]
      exact Or.inr (Or.inl rfl)
    rw [resolve_with_of_parse_args _ _ _ hc, if_pos hu]
  have honly : ∀ x, resolve (prog :: [ch] :: rest) = some x → x = Resolved.UsageFailure := by
    intro x hx
    have h := resolve_with_of_resolve (atoiImpl ovf) (atoiImpl_of_atoi ovf) prog
      ([ch] :: rest) x hx
    rw [hwith] at h
    exact (Option.some.inj h).symm
  refine ⟨hparse.1, hparse.2, hconv, hpc, hwith, honly, ?_⟩
  intro hrest
  have hfit : FitsInt [ch] := (fits_of_atoi [ch] 0 hparse.1).1
  have hok : ArgsOK ([ch] :: rest) := by
    refine ⟨by simp, ?_⟩
    intro u hu
    rw [List.take_succ_cons, List.mem_cons] at hu
    rcases hu with hu | hu
    · rw [hu]; exact hfit
    · exact hrest u hu
  obtain ⟨x, hx⟩ := resolve_defined prog ([ch] :: rest) hok
  rw [hx, honly x hx]

/-- C7, at the tokens `k 99999999999` and a library whose `atoi` returns -1
where the standard defines no value. -/
theorem suffix_only_token_rejected_witness :
    ('k' = 'k' ∨ 'k' = 'K' ∨ 'k' = 'm' ∨ 'k' = 'M') ∧
    atoi "99999999999".toList = none ∧
    atoi ['k'] = some 0 ∧ parse_point_count ['k'] = some 0 ∧
    resolve_with (atoiImpl (fun _ => -1)) ("cupti".toList :: ['k'] :: ["99999999999".toList])
      = some Resolved.UsageFailure :=
  have h := suffix_only_token_rejected (fun _ => -1) "cupti".toList 'k'
    ["99999999999".toList] (by decide)
  ⟨by decide, by decide, h.1, h.2.1, h.2.2.2.2.1⟩

/-- C8 (as amended): when `resolve` succeeds, the run of `main` is: the call
of `devices_info` with the byte count, then the summary (the device header
line, then the `Points:`, `Block size:` and `Step size:` lines with the
resolved values), then the call of `run_calculations`, then status 0. -/
theorem dispatch_event_order (argv : List Token) (c : RunConfig)
    (h : resolve argv = some (Resolved.Config c)) :
    main argv = some {
      events := [
        Event.devices_info (mulSizeT c.num_points sizeof_double),
        Event.cout (OutItem.text "\nRunning calculations on device "),
        Event.cout (OutItem.int c.device_number),
        Event.cout (OutItem.text "\n"),
        Event.cout (OutItem.text "  Points:     "),
        Event.cout (OutItem.size c.num_points),
        Event.cout (OutItem.text "\n"),
        Event.cout (OutItem.text "  Block size: "),
        Event.cout (OutItem.size c.block_size),
        Event.cout (OutItem.text "\n"),
        Event.cout (OutItem.text "  Step size:  "),
        Event.cout (OutItem.size c.step_size),
        Event.cout (OutItem.text "\n"),
        Event.run_calculations c.num_points c.block_size c.step_size c.device_number],
      status := 0 } :=
  main_of_config argv c h

/-- C8 (as amended), at the tokens `1024 32 1 0`. -/
theorem dispatch_event_order_witness :
    resolve ["cupti".toList, "1024".toList, "32".toList, "1".toList, "0".toList] =
      some (Resolved.Config
        { num_points := 1024, block_size := 32, step_size := 1, device_number := 0 }) ∧
    main ["cupti".toList, "1024".toList, "32".toList, "1".toList, "0".toList] = some {
      events := [
        Event.devices_info (mulSizeT 1024 sizeof_double),
        Event.cout (OutItem.text "\nRunning calculations on device "),
        Event.cout (OutItem.int 0),
        Event.cout (OutItem.text "\n"),
        Event.cout (OutItem.text "  Points:     "),
        Event.cout (OutItem.size 1024),
        Event.cout (OutItem.text "\n"),
        Event.cout (OutItem.text "  Block size: "),
        Event.cout (OutItem.size 32),
        Event.cout (OutItem.text "\n"),
        Event.cout (OutItem.text "  Step size:  "),
        Event.cout (OutItem.size 1),
        Event.cout (OutItem.text "\n"),
        Event.run_calculations 1024 32 1 0],
      status := 0 } :=
  ⟨by decide,
   dispatch_event_order
     ["cupti".toList, "1024".toList, "32".toList, "1".toList, "0".toList]
     { num_points := 1024, block_size := 32, step_size := 1, device_number := 0 }
     (by decide)⟩

/-- C8 (as stated) fails at the tokens `1024 32 1 0`: `resolve` succeeds, the
first event of the run is the call `devices_info(8192)`, and every line of the
summary is printed after it. -/
theorem devices_info_before_summary :
    resolve ["cupti".toList, "1024".toList, "32".toList, "1".toList, "0".toList] =
      some (Resolved.Config
        { num_points := 1024, block_size := 32, step_size := 1, device_number := 0 }) ∧
    ∃ r, main ["cupti".toList, "1024".toList, "32".toList, "1".toList, "0".toList] = some r ∧
      r.events.head? = some (Event.devices_info 8192) ∧
      (r.events.takeWhile (fun e => !e.isCall)) = [] ∧
      Event.cout (OutItem.text "\nRunning calculations on device ") ∈ r.events.tail ∧
      Event.cout (OutItem.text "  Points:     ") ∈ r.events.tail ∧
      Event.cout (OutItem.text "  Block size: ") ∈ r.events.tail ∧
      Event.cout (OutItem.text "  Step size:  ") ∈ r.events.tail := by
  refine ⟨by decide, _, rfl, ?_⟩
  decide

/-- C9: for a program name followed by well-formed tokens `main` terminates
with status 0: after the usage line it exits with `EXIT_SUCCESS`, which is 0,
and after the dispatch it returns 0. -/
theorem exit_status_success (prog : Token) (tokens : List Token) (h : ArgsOK tokens) :
    ∃ r, main (prog :: tokens) = some r ∧ r.status = 0 ∧
      (resolve (prog :: tokens) = some Resolved.UsageFailure →
        r = usageExit prog ∧ r.status = EXIT_SUCCESS) ∧
      (∀ c, resolve (prog :: tokens) = some (Resolved.Config c) → r = dispatch c) := by
  obtain ⟨x, hx⟩ := resolve_defined prog tokens h
  cases x with
  | UsageFailure =>
    refine ⟨usageExit prog, main_of_usage prog tokens hx, rfl, fun _ => ⟨rfl, rfl⟩, ?_⟩
    intro c hcfg
    rw [hx] at hcfg
    cases hcfg
  | Config c =>
    refine ⟨dispatch c, main_of_config _ c hx, rfl, ?_, ?_⟩
    · intro hus
      rw [hx] at hus
      cases hus
    · intro c2 hcfg
      rw [hx] at hcfg
      cases hcfg
      rfl

/-- C9, at the tokens `1024 32 1 -1`. -/
theorem exit_status_success_witness :
    ArgsOK ["1024".toList, "32".toList, "1".toList, "-1".toList] ∧
    ∃ r, main ("cupti".toList :: ["1024".toList, "32".toList, "1".toList, "-1".toList])
        = some r ∧ r.status = 0 ∧
      (resolve ("cupti".toList :: ["1024".toList, "32".toList, "1".toList, "-1".toList])
          = some Resolved.UsageFailure →
        r = usageExit "cupti".toList ∧ r.status = EXIT_SUCCESS) ∧
      (∀ c, resolve ("cupti".toList :: ["1024".toList, "32".toList, "1".toList, "-1".toList])
          = some (Resolved.Config c) → r = dispatch c) :=
  ⟨by decide,
   exit_status_success "cupti".toList
     ["1024".toList, "32".toList, "1".toList, "-1".toList] (by decide)⟩

/-- C10: for a non-numeric token `t`, `parse_uint t` is 0, and `resolve` of
well-formed tokens that have `t` in the block size position (2nd) or in the
step size position (3rd) yields `UsageFailure`. -/
theorem non_numeric_token_rejected (t : Token) (hnn : NonNumeric t) :
    parse_uint t = some 0 ∧
    ∀ (prog : Token) (tokens : List Token), ArgsOK tokens →
      (tokens.get? 1 = some t ∨ tokens.get? 2 = some t) →
      resolve (prog :: tokens) = some Resolved.UsageFailure := by
  have hval := atoiVal_of_nonNumeric t hnn
  have hfit : FitsInt t := by
    unfold FitsInt
    rw [hval]
    decide
  have hu : parse_uint t = some 0 := by
    rw [parse_uint_eq t hfit, hval]
    rfl
  refine ⟨hu, ?_⟩
  intro prog tokens hok hpos
  obtain ⟨c, hc⟩ := parse_args_defined prog tokens hok
  obtain ⟨_, hb, hs, _⟩ := parse_args_fields prog tokens c hc
  rcases hpos with hpos | hpos
  · rw [hpos] at hb
    have hb2 : parse_uint t = some c.block_size := hb
    rw [hu] at hb2
    exact resolve_usage_of_zero prog tokens c hc (Or.inr (Or.inl (Option.some.inj hb2).symm))
  · rw [hpos] at hs
    have hs2 : parse_uint t = some c.step_size := hs
    rw [hu] at hs2
    exact resolve_usage_of_zero prog tokens c hc (Or.inr (Or.inr (Option.some.inj hs2).symm))

/-- C10, at the token `abc` in the step size position of `1024 32 abc`. -/
theorem non_numeric_token_rejected_witness :
    NonNumeric "abc".toList ∧ parse_uint "abc".toList = some 0 ∧
    ArgsOK ["1024".toList, "32".toList, "abc".toList] ∧
    resolve ("cupti".toList :: ["1024".toList, "32".toList, "abc".toList])
      = some Resolved.UsageFailure :=
  ⟨by decide, (non_numeric_token_rejected "abc".toList (by decide)).1, by decide,
   (non_numeric_token_rejected "abc".toList (by decide)).2 "cupti".toList
     ["1024".toList, "32".toList, "abc".toList] (by decide) (Or.inr rfl)⟩

/-! ## Digit strings -/

theorem ne_of_isdigit (c x : Char) (hc : isdigit c = true) (hx : isdigit x = false) :
    c ≠ x := by
  rintro rfl
  rw [hc] at hx
  cases hx

theorem isspace_of_isdigit (c : Char) (hc : isdigit c = true) : isspace c = false := by
  unfold isdigit at hc
  unfold isspace
  simp only [Bool.and_eq_true, decide_eq_true_eq] at hc
  simp only [Bool.or_eq_false_iff, Bool.and_eq_false_iff, beq_eq_false_iff_ne, ne_eq,
    decide_eq_false_iff_not]
  omega

/-- The digits are consumed up to the first character that is not a digit. -/
theorem digitsVal_append (d rest : List Char) (hd : ∀ c ∈ d, isdigit c = true)
    (hstop : ∀ c cs, rest = c :: cs → isdigit c = false) :
    ∀ acc, digitsVal acc (d ++ rest) =
      d.foldl (fun a c => a * 10 + (c.toNat - 48)) acc := by
  induction d with
  | nil =>
    intro acc
    cases rest with
    | nil => rfl
    | cons c cs => exact digitsVal_of_not_digit acc c cs (hstop c cs rfl)
  | cons x xs ih =>
    intro acc
    have hx : isdigit x = true := hd x (by simp)
    simp only [List.cons_append, digitsVal, hx, if_true, List.foldl_cons]
    exact ih (fun c hc => hd c (by simp [hc])) _

theorem skipSpace_of_not_space (c : Char) (cs : List Char) (h : isspace c = false) :
    skipSpace (c :: cs) = c :: cs := by
  simp [skipSpace, h]

/-- The value `atoi` converts on a digit string followed by something that
does not start with a digit. -/
theorem atoiVal_digits (d rest : List Char) (hd : IsDigits d)
    (hstop : ∀ c cs, rest = c :: cs → isdigit c = false) :
    atoiVal (d ++ rest) = (decValue d : Int) := by
  obtain ⟨hne, hall⟩ := hd
  cases d with
  | nil => exact absurd rfl hne
  | cons x xs =>
    have hx : isdigit x = true := hall x (by simp)
    have hm : x ≠ '-' := ne_of_isdigit x '-' hx (by decide)
    have hp : x ≠ '+' := ne_of_isdigit x '+' hx (by decide)
    unfold atoiVal
    rw [List.cons_append, skipSpace_of_not_space x _ (isspace_of_isdigit x hx)]
    simp only [if_neg hm, if_neg hp]
    rw [← List.cons_append, digitsVal_append (x :: xs) rest hall hstop 0]
    rfl

theorem atoiVal_minus_digits (d rest : List Char) (hd : IsDigits d)
    (hstop : ∀ c cs, rest = c :: cs → isdigit c = false) :
    atoiVal ('-' :: (d ++ rest)) = -(decValue d : Int) := by
  unfold atoiVal
  rw [skipSpace_of_not_space '-' _ (by decide)]
  simp only [if_true]
  rw [digitsVal_append d rest hd.2 hstop 0]
  rfl

theorem atoiVal_plus_digits (d rest : List Char) (hd : IsDigits d)
    (hstop : ∀ c cs, rest = c :: cs → isdigit c = false) :
    atoiVal ('+' :: (d ++ rest)) = (decValue d : Int) := by
  unfold atoiVal
  rw [skipSpace_of_not_space '+' _ (by decide)]
  have hne : ('+' : Char) ≠ '-' := by decide
  simp only [if_neg hne, if_true]
  rw [digitsVal_append d rest hd.2 hstop 0]
  rfl

theorem stops_nil : ∀ (c : Char) (cs : List Char), ([] : List Char) = c :: cs →
    isdigit c = false := by
  intro c cs h
  cases h

theorem stops_suffix (x : Char) (hx : IsSuffixLetter x) :
    ∀ (c : Char) (cs : List Char), [x] = c :: cs → isdigit c = false := by
  intro c cs h
  have hc : c = x := by
    cases h
    rfl
  subst hc
  rcases hx with h | h | h | h <;> rw [h] <;> decide

theorem atoi_of_val (t : Token) (v : Int) (hv : atoiVal t = v)
    (h1 : INT_MIN ≤ v) (h2 : v ≤ INT_MAX) : atoi t = some v := by
  have hf : FitsInt t := by
    unfold FitsInt
    rw [hv]
    exact ⟨h1, h2⟩
  rw [atoi_of_fits t hf, hv]

theorem parse_args_four (prog t1 t2 t3 t4 : Token) (p b s : Nat) (dv : Int)
    (h1 : parse_point_count t1 = some p) (h2 : parse_uint t2 = some b)
    (h3 : parse_uint t3 = some s) (h4 : parse_int t4 = some dv) :
    parse_args [prog, t1, t2, t3, t4] =
      some { num_points := p, block_size := b, step_size := s, device_number := dv } := by
  rw [parse_args_eq]
  simp [fieldOf, h1, h2, h3, h4]

theorem resolve_four (prog t1 t2 t3 t4 : Token) (p b s : Nat) (dv : Int)
    (h1 : parse_point_count t1 = some p) (h2 : parse_uint t2 = some b)
    (h3 : parse_uint t3 = some s) (h4 : parse_int t4 = some dv)
    (hp : p ≠ 0) (hb : b ≠ 0) (hs : s ≠ 0) :
    resolve [prog, t1, t2, t3, t4] =
      some (if dv < 0 then Resolved.UsageFailure else Resolved.Config
        { num_points := p, block_size := b, step_size := s, device_number := dv }) := by
  rw [resolve_of_parse_args _ _ (parse_args_four prog t1 t2 t3 t4 p b s dv h1 h2 h3 h4)]
  by_cases hd : dv < 0
  · have hu : usageCond [prog, t1, t2, t3, t4].length
        { num_points := p, block_size := b, step_size := s, device_number := dv } = true := by
      rw [usageCond_iff]
      exact Or.inr (Or.inr (Or.inr (Or.inr hd)))
    rw [if_pos hu, if_pos hd]
  · have hu : ¬ usageCond [prog, t1, t2, t3, t4].length
        { num_points := p, block_size := b, step_size := s, device_number := dv } = true := by
      rw [usageCond_iff]
      simp only [List.length_cons, List.length_nil]
      rintro (h | h | h | h | h)
      · omega
      · exact hp h
      · exact hb h
      · exact hs h
      · exact hd h
    rw [if_neg hu, if_neg hd]

/-! ## Properties of the parsers -/

/-- C11: for a non-empty digit string `d` of value `v ≤ 2^31 - 1`, `parse_int`
is `v` on `d` and on `+d`, and `-v` on `-d`; so `resolve` of four tokens whose
first three are valid and whose device token is `-d` yields `UsageFailure`
exactly when `v > 0`, and the configuration with device number 0 when `v = 0`;
`1024 32 1 -1` fails and `1024 32 1 -0` is accepted with device number 0. -/
theorem parse_int_signed_digits (d : List Char) (hd : IsDigits d)
    (hv : decValue d ≤ 2 ^ 31 - 1) :
    parse_int d = some (decValue d : Int) ∧
    parse_int ('+' :: d) = some (decValue d : Int) ∧
    parse_int ('-' :: d) = some (-(decValue d : Int)) ∧
    (∀ (prog t1 t2 t3 : Token) (p b s : Nat),
      parse_point_count t1 = some p → parse_uint t2 = some b → parse_uint t3 = some s →
      p ≠ 0 → b ≠ 0 → s ≠ 0 →
      (resolve [prog, t1, t2, t3, '-' :: d] = some Resolved.UsageFailure ↔ 0 < decValue d) ∧
      (decValue d = 0 → resolve [prog, t1, t2, t3, '-' :: d] = some (Resolved.Config
        { num_points := p, block_size := b, step_size := s, device_number := 0 }))) ∧
    (∀ prog : Token,
      resolve [prog, "1024".toList, "32".toList, "1".toList, "-1".toList]
        = some Resolved.UsageFailure) ∧
    (∀ prog : Token,
      resolve [prog, "1024".toList, "32".toList, "1".toList, "-0".toList]
        = some (Resolved.Config
          { num_points := 1024, block_size := 32, step_size := 1, device_number := 0 })) := by
  have hmaxv : ((decValue d : Nat) : Int) ≤ INT_MAX := by
    unfold INT_MAX
    omega
  have hminv : INT_MIN ≤ ((decValue d : Nat) : Int) := by
    unfold INT_MIN
    omega
  have hminn : INT_MIN ≤ -((decValue d : Nat) : Int) := by
    unfold INT_MIN
    omega
  have hmaxn : -((decValue d : Nat) : Int) ≤ INT_MAX := by
    unfold INT_MAX
    omega
  have e0 : atoiVal d = (decValue d : Int) := by
    have h := atoiVal_digits d [] hd stops_nil
    rwa [List.append_nil] at h
  have ep : atoiVal ('+' :: d) = (decValue d : Int) := by
    have h := atoiVal_plus_digits d [] hd stops_nil
    rwa [List.append_nil] at h
  have em : atoiVal ('-' :: d) = -(decValue d : Int) := by
    have h := atoiVal_minus_digits d [] hd stops_nil
    rwa [List.append_nil] at h
  have hneg : parse_int ('-' :: d) = some (-(decValue d : Int)) :=
    atoi_of_val _ _ em hminn hmaxn
  refine ⟨atoi_of_val _ _ e0 hminv hmaxv, atoi_of_val _ _ ep hminv hmaxv, hneg, ?_, ?_, ?_⟩
  · intro prog t1 t2 t3 p b s h1 h2 h3 hp hb hs
    have hres := resolve_four prog t1 t2 t3 ('-' :: d) p b s _ h1 h2 h3 hneg hp hb hs
    constructor
    · rw [hres]
      by_cases hlt : -((decValue d : Nat) : Int) < 0
      · rw [if_pos hlt]
        constructor
        · intro _
          omega
        · intro _
          rfl
      · rw [if_neg hlt]
        constructor
        · intro h
          cases h
        · intro h
          omega
    · intro hz
      rw [hres, hz]
      rfl
  · intro prog
    exact resolve_four prog "1024".toList "32".toList "1".toList "-1".toList
      1024 32 1 (-1) (by decide) (by decide) (by decide)
      (by decide) (by decide) (by decide) (by decide)
  · intro prog
    exact resolve_four prog "1024".toList "32".toList "1".toList "-0".toList
      1024 32 1 0 (by decide) (by decide) (by decide)
      (by decide) (by decide) (by decide) (by decide)

/-- C11, at the digit string `7`. -/
theorem parse_int_signed_digits_witness :
    IsDigits "7".toList ∧ decValue "7".toList ≤ 2 ^ 31 - 1 ∧
    parse_int "7".toList = some (decValue "7".toList : Int) ∧
    parse_int ('+' :: "7".toList) = some (decValue "7".toList : Int) ∧
    parse_int ('-' :: "7".toList) = some (-(decValue "7".toList : Int)) ∧
    (resolve ["cupti".toList, "1024".toList, "32".toList, "1".toList, '-' :: "7".toList]
      = some Resolved.UsageFailure ↔ 0 < decValue "7".toList) :=
  have h := parse_int_signed_digits "7".toList (by decide) (by decide)
  ⟨by decide, by decide, h.1, h.2.1, h.2.2.1,
   (h.2.2.2.1 "cupti".toList "1024".toList "32".toList "1".toList 1024 32 1
     (by decide) (by decide) (by decide) (by decide) (by decide) (by decide)).1⟩

/-- C12: when validation fails, `main` writes to standard output exactly
`Usage: `, the program name `argv[0]`, and
` <number of doubles> <block size> <step size> <device number>` with a
newline, and nothing else happens before the exit. -/
theorem usage_line (prog : Token) (tokens : List Token)
    (hu : resolve (prog :: tokens) = some Resolved.UsageFailure) :
    ∃ r, main (prog :: tokens) = some r ∧
      r.events = [
        Event.cout (OutItem.text "Usage: "),
        Event.cout (OutItem.cstr prog),
        Event.cout (OutItem.text
          " <number of doubles> <block size> <step size> <device number>\n")] ∧
      stdoutText r.events =
        "Usage: ".toList ++ prog ++
          " <number of doubles> <block size> <step size> <device number>\n".toList := by
  refine ⟨usageExit prog, main_of_usage prog tokens hu, rfl, ?_⟩
  simp [usageExit, stdoutText, OutItem.chars]

/-- C12, at the program name `cupti` and the tokens `0 32 1 0`. -/
theorem usage_line_witness :
    resolve ("cupti".toList :: ["0".toList, "32".toList, "1".toList, "0".toList])
      = some Resolved.UsageFailure ∧
    ∃ r, main ("cupti".toList :: ["0".toList, "32".toList, "1".toList, "0".toList])
        = some r ∧
      r.events = [
        Event.cout (OutItem.text "Usage: "),
        Event.cout (OutItem.cstr "cupti".toList),
        Event.cout (OutItem.text
          " <number of doubles> <block size> <step size> <device number>\n")] ∧
      stdoutText r.events =
        "Usage: ".toList ++ "cupti".toList ++
          " <number of doubles> <block size> <step size> <device number>\n".toList :=
  ⟨by decide,
   usage_line "cupti".toList ["0".toList, "32".toList, "1".toList, "0".toList] (by decide)⟩

/-! ## Scaling of digit strings -/

theorem isCStr_of_digits (d : List Char) (hd : ∀ c ∈ d, isdigit c = true) : IsCStr d := by
  intro c hc
  exact ne_of_isdigit c NUL (hd c hc) (by decide)

theorem isCStr_append (t u : Token) (ht : IsCStr t) (hu : IsCStr u) : IsCStr (t ++ u) := by
  intro c hc
  rcases List.mem_append.mp hc with h | h
  · exact ht c h
  · exact hu c h

theorem isCStr_cons (x : Char) (t : Token) (hx : x ≠ NUL) (ht : IsCStr t) :
    IsCStr (x :: t) := by
  intro c hc
  rcases List.mem_cons.mp hc with h | h
  · rw [h]; exact hx
  · exact ht c h

theorem isCStr_suffix (x : Char) (hx : IsSuffixLetter x) : IsCStr [x] := by
  intro c hc
  rw [List.mem_singleton] at hc
  subst hc
  rcases hx with h | h | h | h <;> rw [h] <;> decide

theorem suffixScale_of_isdigit (c : Char) (hc : isdigit c = true) : suffixScale c = 1 := by
  have h1 : c ≠ 'k' := ne_of_isdigit c 'k' hc (by decide)
  have h2 : c ≠ 'K' := ne_of_isdigit c 'K' hc (by decide)
  have h3 : c ≠ 'm' := ne_of_isdigit c 'm' hc (by decide)
  have h4 : c ≠ 'M' := ne_of_isdigit c 'M' hc (by decide)
  simp [suffixScale, h1, h2, h3, h4]

theorem mulSizeT_one (n : Int) : mulSizeT (toSizeT n) 1 = toSizeT n := by
  unfold mulSizeT
  rw [Nat.mul_one, Nat.mod_eq_of_lt (toSizeT_lt n)]

/-- A points token that ends in a digit is not scaled. -/
theorem parse_point_count_ends_digit (t : Token) (n : Int) (hne : t ≠ []) (hc : IsCStr t)
    (hn : atoi t = some n) (hlast : isdigit (t.getLast hne) = true) :
    parse_point_count t = some (toSizeT n) := by
  rw [parse_point_count_eq t n hne hc hn, suffixScale_of_isdigit _ hlast, mulSizeT_one]

/-- A points token that ends in the character `x` is scaled by its factor. -/
theorem parse_point_count_ends (t : Token) (x : Char) (n : Int) (hc : IsCStr (t ++ [x]))
    (hn : atoi (t ++ [x]) = some n) :
    parse_point_count (t ++ [x]) = some (mulSizeT (toSizeT n) (suffixScale x)) := by
  have hne : t ++ [x] ≠ [] := by simp
  rw [parse_point_count_eq (t ++ [x]) n hne hc hn, List.getLast_append_singleton]

theorem mulSizeT_small (v k : Nat) (hv : v ≤ 2 ^ 31 - 1) (hk : k ≤ 1048576) :
    mulSizeT (toSizeT (v : Int)) k = v * k := by
  have hmax : (v : Int) ≤ INT_MAX := by
    unfold INT_MAX
    omega
  rw [toSizeT_of_nonneg (v : Int) (Int.ofNat_nonneg v) hmax]
  simp only [Int.toNat_ofNat, mulSizeT, SIZE_MOD, SIZE_BITS]
  apply Nat.mod_eq_of_lt
  calc v * k ≤ (2 ^ 31 - 1) * 1048576 := Nat.mul_le_mul hv hk
    _ < 2 ^ 64 := by decide

theorem getLast_isdigit (d : List Char) (hne : d ≠ []) (hd : ∀ c ∈ d, isdigit c = true) :
    isdigit (d.getLast hne) = true :=
  hd _ (List.getLast_mem hne)

theorem atoi_digits_suffix (d : List Char) (x : Char) (hd : IsDigits d)
    (hv : decValue d ≤ 2 ^ 31 - 1) (hx : IsSuffixLetter x) :
    atoi (d ++ [x]) = some (decValue d : Int) := by
  apply atoi_of_val _ _ (atoiVal_digits d [x] hd (stops_suffix x hx))
  · unfold INT_MIN
    omega
  · unfold INT_MAX
    omega

theorem atoi_digits (d : List Char) (hd : IsDigits d) (hv : decValue d ≤ 2 ^ 31 - 1) :
    atoi d = some (decValue d : Int) := by
  have e0 : atoiVal d = (decValue d : Int) := by
    have h := atoiVal_digits d [] hd stops_nil
    rwa [List.append_nil] at h
  apply atoi_of_val _ _ e0
  · unfold INT_MIN
    omega
  · unfold INT_MAX
    omega

theorem parse_point_count_digits_suffix (d : List Char) (x : Char) (hd : IsDigits d)
    (hv : decValue d ≤ 2 ^ 31 - 1) (hx : IsSuffixLetter x) :
    parse_point_count (d ++ [x]) = some (decValue d * suffixScale x) := by
  have hc : IsCStr (d ++ [x]) :=
    isCStr_append d [x] (isCStr_of_digits d hd.2) (isCStr_suffix x hx)
  rw [parse_point_count_ends d x _ hc (atoi_digits_suffix d x hd hv hx)]
  have hk : suffixScale x ≤ 1048576 := by
    rcases hx with h | h | h | h <;> rw [h] <;> decide
  rw [mulSizeT_small _ _ hv hk]

/-- C13: for a non-empty digit string `d` of value `v ≤ 2^31 - 1`,
`parse_point_count` is `v` on `d`, `1024 * v` on `dk` and on `dK`, and
`1048576 * v`, which is 1024 times the value on `dk`, on `dm` and on `dM`; the
products are the exact ones, below `2^64`. -/
theorem point_count_suffix_digits (d : List Char) (hd : IsDigits d)
    (hv : decValue d ≤ 2 ^ 31 - 1) :
    parse_point_count d = some (decValue d) ∧
    parse_point_count (d ++ ['k']) = some (1024 * decValue d) ∧
    parse_point_count (d ++ ['K']) = some (1024 * decValue d) ∧
    parse_point_count (d ++ ['m']) = some (1048576 * decValue d) ∧
    parse_point_count (d ++ ['M']) = some (1048576 * decValue d) ∧
    (∃ pk, parse_point_count (d ++ ['k']) = some pk ∧
      parse_point_count (d ++ ['m']) = some (1024 * pk)) ∧
    1048576 * decValue d < 2 ^ 64 := by
  have h0 : parse_point_count d = some (decValue d) := by
    have h := parse_point_count_ends_digit d _ hd.1 (isCStr_of_digits d hd.2)
      (atoi_digits d hd hv) (getLast_isdigit d hd.1 hd.2)
    rw [h]
    have hmax : ((decValue d : Nat) : Int) ≤ INT_MAX := by
      unfold INT_MAX
      omega
    rw [toSizeT_of_nonneg _ (Int.ofNat_nonneg _) hmax]
    simp
  have hk := parse_point_count_digits_suffix d 'k' hd hv (Or.inl rfl)
  have hK := parse_point_count_digits_suffix d 'K' hd hv (Or.inr (Or.inl rfl))
  have hm := parse_point_count_digits_suffix d 'm' hd hv (Or.inr (Or.inr (Or.inl rfl)))
  have hM := parse_point_count_digits_suffix d 'M' hd hv (Or.inr (Or.inr (Or.inr rfl)))
  have sk : suffixScale 'k' = 1024 := by decide
  have sK : suffixScale 'K' = 1024 := by decide
  have sm : suffixScale 'm' = 1048576 := by decide
  have sM : suffixScale 'M' = 1048576 := by decide
  rw [sk, Nat.mul_comm] at hk
  rw [sK, Nat.mul_comm] at hK
  rw [sm, Nat.mul_comm] at hm
  rw [sM, Nat.mul_comm] at hM
  refine ⟨h0, hk, hK, hm, hM, ⟨_, hk, ?_⟩, by omega⟩
  rw [hm]
  congr 1
  omega

/-- C13, at the digit string `12`. -/
theorem point_count_suffix_digits_witness :
    IsDigits "12".toList ∧ decValue "12".toList ≤ 2 ^ 31 - 1 ∧
    parse_point_count "12".toList = some (decValue "12".toList) ∧
    parse_point_count ("12".toList ++ ['k']) = some (1024 * decValue "12".toList) ∧
    parse_point_count ("12".toList ++ ['K']) = some (1024 * decValue "12".toList) ∧
    parse_point_count ("12".toList ++ ['m']) = some (1048576 * decValue "12".toList) ∧
    parse_point_count ("12".toList ++ ['M']) = some (1048576 * decValue "12".toList) ∧
    (∃ pk, parse_point_count ("12".toList ++ ['k']) = some pk ∧
      parse_point_count ("12".toList ++ ['m']) = some (1024 * pk)) ∧
    1048576 * decValue "12".toList < 2 ^ 64 :=
  ⟨by decide, by decide, point_count_suffix_digits "12".toList (by decide) (by decide)⟩

/-! ## Conversion of negative values -/

theorem toSizeT_of_neg (n : Int) (h0 : n < 0) (h1 : INT_MIN ≤ n) :
    (toSizeT n : Int) = 2 ^ 64 + n := by
  unfold toSizeT
  unfold INT_MIN at h1
  have hm : ((SIZE_MOD : Nat) : Int) = 2 ^ 64 := by decide
  rw [hm]
  have h2 : n % (2 ^ 64 : Int) = 2 ^ 64 + n := by omega
  rw [h2]
  omega

theorem toSizeT_neg_digits (v : Nat) (h1 : 1 ≤ v) (h2 : v ≤ 2 ^ 31) :
    toSizeT (-(v : Int)) = 2 ^ 64 - v := by
  have h := toSizeT_of_neg (-(v : Int)) (by omega) (by unfold INT_MIN; omega)
  omega

theorem suffixScale_cases (c : Char) :
    suffixScale c = 1 ∨ suffixScale c = 1024 ∨ suffixScale c = 1048576 := by
  unfold suffixScale
  split
  · exact Or.inr (Or.inl rfl)
  · split
    · exact Or.inr (Or.inr rfl)
    · exact Or.inl rfl

/-- Scaling cannot turn the `size_t` image of a non-zero `int` into 0. -/
theorem scaled_ne_zero (m k : Nat) (hk : k = 1 ∨ k = 1024 ∨ k = 1048576)
    (hm : (0 < m ∧ m < 2 ^ 31) ∨ (2 ^ 64 - 2 ^ 31 ≤ m ∧ m < 2 ^ 64)) :
    mulSizeT m k ≠ 0 := by
  simp only [mulSizeT, SIZE_MOD, SIZE_BITS]
  rcases hk with h | h | h <;> subst h <;> omega

theorem toSizeT_range (n : Int) (h1 : INT_MIN ≤ n) (h2 : n ≤ INT_MAX) (hn : n ≠ 0) :
    (0 < toSizeT n ∧ toSizeT n < 2 ^ 31) ∨
      (2 ^ 64 - 2 ^ 31 ≤ toSizeT n ∧ toSizeT n < 2 ^ 64) := by
  by_cases h0 : 0 ≤ n
  · left
    rw [toSizeT_of_nonneg n h0 h2]
    unfold INT_MAX at h2
    omega
  · right
    have h := toSizeT_of_neg n (by omega) h1
    unfold INT_MIN at h1
    omega

theorem toSizeT_zero : toSizeT 0 = 0 := by decide

theorem resolve_config_of_valid (prog : Token) (tokens : List Token) (c : RunConfig)
    (hc : parse_args (prog :: tokens) = some c) (hlen : tokens.length ≤ 4)
    (hp : c.num_points ≠ 0) (hb : c.block_size ≠ 0) (hs : c.step_size ≠ 0)
    (hd : 0 ≤ c.device_number) :
    resolve (prog :: tokens) = some (Resolved.Config c) := by
  have hu : ¬ usageCond (prog :: tokens).length c = true := by
    rw [usageCond_iff]
    simp only [List.length_cons]
    rintro (h | h | h | h | h)
    · omega
    · exact hp h
    · exact hb h
    · exact hs h
    · omega
  rw [resolve_of_parse_args _ c hc, if_neg hu]

/-- C14: for a non-empty points token whose numeric value `n` is in the range
of `int`, `parse_point_count` returns a point count that is 0 exactly when
`n = 0`; so `resolve` of that single token is `UsageFailure` exactly when
`n = 0`. -/
theorem point_count_zero_iff (t : Token) (n : Int) (hne : t ≠ []) (hc : IsCStr t)
    (hn : atoi t = some n) :
    ∃ p, parse_point_count t = some p ∧ (p = 0 ↔ n = 0) ∧
      ∀ prog : Token, (resolve [prog, t] = some Resolved.UsageFailure ↔ n = 0) := by
  have heq := parse_point_count_eq t n hne hc hn
  obtain ⟨hfit0, hval⟩ := fits_of_atoi t n hn
  have hfit : INT_MIN ≤ n ∧ n ≤ INT_MAX := by
    rw [hval]
    exact hfit0
  have hiff : mulSizeT (toSizeT n) (suffixScale (t.getLast hne)) = 0 ↔ n = 0 := by
    constructor
    · intro hz
      by_contra hn0
      exact scaled_ne_zero _ _ (suffixScale_cases _) (toSizeT_range n hfit.1 hfit.2 hn0) hz
    · intro hz
      rw [hz, toSizeT_zero]
      simp [mulSizeT]
  refine ⟨_, heq, hiff, ?_⟩
  intro prog
  have hargs : parse_args [prog, t] = some
      { num_points := mulSizeT (toSizeT n) (suffixScale (t.getLast hne)),
        block_size := BLOCK_SIZE, step_size := STEP_SIZE, device_number := DEVICE_NUMBER } := by
    rw [parse_args_eq]
    simp [fieldOf, heq]
  rw [resolve_of_parse_args _ _ hargs, ← hiff]
  by_cases hz : mulSizeT (toSizeT n) (suffixScale (t.getLast hne)) = 0
  · have hu : usageCond [prog, t].length
        { num_points := mulSizeT (toSizeT n) (suffixScale (t.getLast hne)),
          block_size := BLOCK_SIZE, step_size := STEP_SIZE,
          device_number := DEVICE_NUMBER } = true := by
      rw [usageCond_iff]
      exact Or.inr (Or.inl hz)
    rw [if_pos hu]
    exact ⟨fun _ => hz, fun _ => rfl⟩
  · have hu : ¬ usageCond [prog, t].length
        { num_points := mulSizeT (toSizeT n) (suffixScale (t.getLast hne)),
          block_size := BLOCK_SIZE, step_size := STEP_SIZE,
          device_number := DEVICE_NUMBER } = true := by
      rw [usageCond_iff]
      simp only [List.length_cons, List.length_nil]
      rintro (h | h | h | h | h)
      · omega
      · exact hz h
      · revert h; decide
      · revert h; decide
      · revert h; decide
    rw [if_neg hu]
    constructor
    · intro h
      cases h
    · intro h
      exact absurd h hz

/-- C14, at the token `-5m`. -/
theorem point_count_zero_iff_witness :
    "-5m".toList ≠ [] ∧ IsCStr "-5m".toList ∧ atoi "-5m".toList = some (-5) ∧
    ∃ p, parse_point_count "-5m".toList = some p ∧ (p = 0 ↔ (-5 : Int) = 0) ∧
      ∀ prog : Token,
        (resolve [prog, "-5m".toList] = some Resolved.UsageFailure ↔ (-5 : Int) = 0) :=
  ⟨by decide, by decide, by decide,
   point_count_zero_iff "-5m".toList (-5) (by decide) (by decide) (by decide)⟩

theorem atoi_minus_digits (d rest : List Char) (hd : IsDigits d)
    (hstop : ∀ c cs, rest = c :: cs → isdigit c = false) (h2 : decValue d ≤ 2 ^ 31) :
    atoi ('-' :: (d ++ rest)) = some (-(decValue d : Int)) := by
  apply atoi_of_val _ _ (atoiVal_minus_digits d rest hd hstop)
  · unfold INT_MIN
    omega
  · unfold INT_MAX
    omega

theorem isCStr_minus_digits (d : List Char) (hd : IsDigits d) : IsCStr ('-' :: d) :=
  isCStr_cons '-' d (by decide) (isCStr_of_digits d hd.2)

/-- C15: for a non-empty digit string `d` of value `n`, `1 ≤ n ≤ 2^31`, the
token `-d` is parsed to the `size_t` value `2^64 - n` in the block size and
step size positions and in the points position, a suffixed points token `-d`
with `k`, `K`, `m` or `M` to that value scaled modulo `2^64`, and these values
are not 0; so with at most 4 well-formed tokens `resolve` succeeds with that
value in the field when the other fields are valid; `1024 -3 1 0` resolves
with block size `2^64 - 3`. -/
theorem negative_token_accepted (d : List Char) (hd : IsDigits d)
    (h1 : 1 ≤ decValue d) (h2 : decValue d ≤ 2 ^ 31) :
    parse_uint ('-' :: d) = some (2 ^ 64 - decValue d) ∧
    parse_point_count ('-' :: d) = some (2 ^ 64 - decValue d) ∧
    2 ^ 64 - decValue d ≠ 0 ∧
    (∀ x, IsSuffixLetter x →
      parse_point_count ('-' :: (d ++ [x])) =
        some ((2 ^ 64 - decValue d) * suffixScale x % 2 ^ 64) ∧
      (2 ^ 64 - decValue d) * suffixScale x % 2 ^ 64 ≠ 0) ∧
    (∀ (prog : Token) (tokens : List Token), ArgsOK tokens → tokens.length ≤ 4 →
      ∃ c, parse_args (prog :: tokens) = some c ∧
        (tokens.get? 0 = some ('-' :: d) → c.num_points = 2 ^ 64 - decValue d ∧
          (c.block_size ≠ 0 → c.step_size ≠ 0 → 0 ≤ c.device_number →
            resolve (prog :: tokens) = some (Resolved.Config c))) ∧
        (tokens.get? 1 = some ('-' :: d) → c.block_size = 2 ^ 64 - decValue d ∧
          (c.num_points ≠ 0 → c.step_size ≠ 0 → 0 ≤ c.device_number →
            resolve (prog :: tokens) = some (Resolved.Config c))) ∧
        (tokens.get? 2 = some ('-' :: d) → c.step_size = 2 ^ 64 - decValue d ∧
          (c.num_points ≠ 0 → c.block_size ≠ 0 → 0 ≤ c.device_number →
            resolve (prog :: tokens) = some (Resolved.Config c)))) ∧
    (∀ prog : Token,
      resolve [prog, "1024".toList, "-3".toList, "1".toList, "0".toList] =
        some (Resolved.Config
          { num_points := 1024, block_size := 2 ^ 64 - 3, step_size := 1,
            device_number := 0 })) := by
  have hconv := toSizeT_neg_digits (decValue d) h1 h2
  have hatoi : atoi ('-' :: d) = some (-(decValue d : Int)) := by
    have h := atoi_minus_digits d [] hd stops_nil h2
    rwa [List.append_nil] at h
  have hnz : 2 ^ 64 - decValue d ≠ 0 := by omega
  have hu : parse_uint ('-' :: d) = some (2 ^ 64 - decValue d) := by
    simp [parse_uint, hatoi, hconv]
  have hp : parse_point_count ('-' :: d) = some (2 ^ 64 - decValue d) := by
    have hne : ('-' :: d) ≠ [] := by simp
    have hlast : isdigit (('-' :: d).getLast hne) = true := by
      rw [List.getLast_cons hd.1]
      exact getLast_isdigit d hd.1 hd.2
    rw [parse_point_count_ends_digit _ _ hne (isCStr_minus_digits d hd) hatoi hlast, hconv]
  refine ⟨hu, hp, hnz, ?_, ?_, ?_⟩
  · intro x hx
    have hc : IsCStr (('-' :: d) ++ [x]) :=
      isCStr_append _ [x] (isCStr_minus_digits d hd) (isCStr_suffix x hx)
    have ha : atoi (('-' :: d) ++ [x]) = some (-(decValue d : Int)) :=
      atoi_minus_digits d [x] hd (stops_suffix x hx) h2
    have h := parse_point_count_ends ('-' :: d) x _ hc ha
    rw [hconv] at h
    have hrange : (0 < 2 ^ 64 - decValue d ∧ 2 ^ 64 - decValue d < 2 ^ 31) ∨
        (2 ^ 64 - 2 ^ 31 ≤ 2 ^ 64 - decValue d ∧ 2 ^ 64 - decValue d < 2 ^ 64) := by
      right
      omega
    exact ⟨h, scaled_ne_zero _ _ (suffixScale_cases x) hrange⟩
  · intro prog tokens hok hlen
    obtain ⟨c, hc⟩ := parse_args_defined prog tokens hok
    obtain ⟨fp, fb, fs, _⟩ := parse_args_fields prog tokens c hc
    refine ⟨c, hc, ?_, ?_, ?_⟩
    · intro hpos
      rw [hpos] at fp
      have e : parse_point_count ('-' :: d) = some c.num_points := fp
      rw [hp] at e
      have e2 : c.num_points = 2 ^ 64 - decValue d := (Option.some.inj e).symm
      refine ⟨e2, fun hb hs hdv => ?_⟩
      exact resolve_config_of_valid prog tokens c hc hlen (by rw [e2]; exact hnz) hb hs hdv
    · intro hpos
      rw [hpos] at fb
      have e : parse_uint ('-' :: d) = some c.block_size := fb
      rw [hu] at e
      have e2 : c.block_size = 2 ^ 64 - decValue d := (Option.some.inj e).symm
      refine ⟨e2, fun hpt hs hdv => ?_⟩
      exact resolve_config_of_valid prog tokens c hc hlen hpt (by rw [e2]; exact hnz) hs hdv
    · intro hpos
      rw [hpos] at fs
      have e : parse_uint ('-' :: d) = some c.step_size := fs
      rw [hu] at e
      have e2 : c.step_size = 2 ^ 64 - decValue d := (Option.some.inj e).symm
      refine ⟨e2, fun hpt hb hdv => ?_⟩
      exact resolve_config_of_valid prog tokens c hc hlen hpt hb (by rw [e2]; exact hnz) hdv
  · intro prog
    have h := resolve_four prog "1024".toList "-3".toList "1".toList "0".toList
      1024 (2 ^ 64 - 3) 1 0 (by decide) (by decide) (by decide) (by decide)
      (by decide) (by decide) (by decide)
    rw [h]
    rfl

/-- C15, at the digit string `3`. -/
theorem negative_token_accepted_witness :
    IsDigits "3".toList ∧ 1 ≤ decValue "3".toList ∧ decValue "3".toList ≤ 2 ^ 31 ∧
    parse_uint ('-' :: "3".toList) = some (2 ^ 64 - decValue "3".toList) ∧
    parse_point_count ('-' :: "3".toList) = some (2 ^ 64 - decValue "3".toList) ∧
    2 ^ 64 - decValue "3".toList ≠ 0 :=
  have h := negative_token_accepted "3".toList (by decide) (by decide) (by decide)
  ⟨by decide, by decide, by decide, h.1, h.2.1, h.2.2.1⟩

/-! ## The scan for the last character -/

/-- The recorded loop and `scanLast` are the same loop. -/
theorem scanLoop_last_char (t : Token) :
    ∀ (fuel : Nat) (st : ScanState),
      (scanLoop t fuel st).map (fun r => r.last_char) = scanLast t fuel st.last_char := by
  intro fuel
  induction fuel with
  | zero => intro st; rfl
  | succ f ih =>
    intro st
    unfold scanLoop scanLast
    cases hch : charAt t (st.last_char + 1) with
    | none => rfl
    | some c =>
      by_cases hnul : c = NUL
      · simp [hnul]
      · simp only [ne_eq, hnul, not_false_eq_true, if_true]
        exact ih _

/-- The loop entered inside a C string: where it stops, how many increments
it makes and which indices it reads. -/
theorem scanLoop_run (t : Token) (hc : IsCStr t) :
    ∀ (fuel : Nat) (st : ScanState), st.last_char < t.length →
      t.length - st.last_char ≤ fuel →
      scanLoop t fuel st = some
        { last_char := t.length - 1,
          increments := st.increments + (t.length - 1 - st.last_char),
          reads := st.reads ++ List.range' (st.last_char + 1) (t.length - st.last_char) } := by
  intro fuel
  induction fuel with
  | zero => intro st hi hf; omega
  | succ f ih =>
    intro st hi hf
    unfold scanLoop
    by_cases hlast : st.last_char + 1 = t.length
    · rw [hlast, charAt_length]
      have e1 : t.length - 1 = st.last_char := by omega
      have e2 : t.length - st.last_char = 1 := by omega
      simp [e1, e2, hlast]
    · have hlt : st.last_char + 1 < t.length := by omega
      rw [charAt_of_lt t (st.last_char + 1) hlt]
      have hne : t.get ⟨st.last_char + 1, hlt⟩ ≠ NUL := hc _ (List.get_mem t _ hlt)
      simp only [hne, ne_eq, not_false_eq_true, if_true]
      rw [ih _ hlt (by simp only; omega)]
      have e1 : st.increments + 1 + (t.length - 1 - (st.last_char + 1)) =
          st.increments + (t.length - 1 - st.last_char) := by omega
      have e2 : t.length - st.last_char = (t.length - (st.last_char + 1)) + 1 := by omega
      rw [e1, e2, List.range'_succ, List.append_assoc]
      rfl

/-- C16: on a non-empty C string of length `L` the scan loop terminates (any
fuel of at least `L` evaluations of the condition is enough) after exactly
`L - 1` increments with `last_char` at index `L - 1`, the last character; the
indices it reads are `1, ..., L`, each at most `L` and inside the string or
on its terminator; on the empty token the first read, at index 1, is outside
the string. -/
theorem scan_loop_bounds (t : Token) (hne : t ≠ []) (hc : IsCStr t) :
    (∀ fuel, t.length ≤ fuel →
      scanLoop t fuel scanInit = some
        { last_char := t.length - 1, increments := t.length - 1,
          reads := List.range' 1 t.length }) ∧
    scanLast t (t.length + 1) 0 = some (t.length - 1) ∧
    charAt t (t.length - 1) = some (t.getLast hne) ∧
    (∀ i ∈ List.range' 1 t.length, i ≤ t.length ∧ ∃ c, charAt t i = some c) ∧
    charAt [] (scanInit.last_char + 1) = none ∧
    (∀ fuel, scanLoop [] fuel scanInit = none) := by
  have hlen : 0 < t.length := List.length_pos.mpr hne
  refine ⟨?_, scanLast_last t hc (t.length + 1) 0 hlen (by omega), ?_, ?_, rfl, ?_⟩
  · intro fuel hf
    have h := scanLoop_run t hc fuel scanInit hlen (by simp only [scanInit]; omega)
    rw [h]
    simp [scanInit]
  · have hlt : t.length - 1 < t.length := by omega
    rw [charAt_of_lt t _ hlt, List.getLast_eq_getElem]
    rfl
  · intro i hi
    rw [List.mem_range'_1] at hi
    refine ⟨by omega, ?_⟩
    by_cases hlt : i < t.length
    · exact ⟨_, charAt_of_lt t i hlt⟩
    · have he : i = t.length := by omega
      rw [he]
      exact ⟨_, charAt_length t⟩
  · intro fuel
    cases fuel with
    | zero => rfl
    | succ f => rfl

/-- C16, at the token `512k`. -/
theorem scan_loop_bounds_witness :
    "512k".toList ≠ [] ∧ IsCStr "512k".toList ∧
    scanLoop "512k".toList 4 scanInit = some
      { last_char := 3, increments := 3, reads := [1, 2, 3, 4] } :=
  ⟨by decide, by decide,
   (scan_loop_bounds "512k".toList (by decide) (by decide)).1 4 (by decide)⟩

/-! ## Frame of the unit suffix -/

/-- C17: for a non-empty digit string `d` of value `v ≤ 2^31 - 1` and a suffix
letter `x`, the token `dx` is parsed to `v`, unscaled, as a block size, a step
size and a device number, and that is the value of the field after parsing;
and two well-formed token sequences with the same points position have the
same resolved point count, whatever their tokens 2 to 4. -/
theorem suffix_scales_points_only (d : List Char) (x : Char) (hd : IsDigits d)
    (hv : decValue d ≤ 2 ^ 31 - 1) (hx : IsSuffixLetter x) :
    parse_uint (d ++ [x]) = some (decValue d) ∧
    parse_int (d ++ [x]) = some (decValue d : Int) ∧
    (∀ (prog : Token) (tokens : List Token), ArgsOK tokens →
      ∃ c, parse_args (prog :: tokens) = some c ∧
        (tokens.get? 1 = some (d ++ [x]) → c.block_size = decValue d) ∧
        (tokens.get? 2 = some (d ++ [x]) → c.step_size = decValue d) ∧
        (tokens.get? 3 = some (d ++ [x]) → c.device_number = (decValue d : Int))) ∧
    (∀ (prog prog2 : Token) (tokens tokens2 : List Token), ArgsOK tokens → ArgsOK tokens2 →
      tokens.get? 0 = tokens2.get? 0 →
      ∃ c c2, parse_args (prog :: tokens) = some c ∧ parse_args (prog2 :: tokens2) = some c2 ∧
        c.num_points = c2.num_points) := by
  have hatoi := atoi_digits_suffix d x hd hv hx
  have hmax : ((decValue d : Nat) : Int) ≤ INT_MAX := by
    unfold INT_MAX
    omega
  have hu : parse_uint (d ++ [x]) = some (decValue d) := by
    simp [parse_uint, hatoi, toSizeT_of_nonneg _ (Int.ofNat_nonneg _) hmax]
  have hi : parse_int (d ++ [x]) = some (decValue d : Int) := hatoi
  refine ⟨hu, hi, ?_, ?_⟩
  · intro prog tokens hok
    obtain ⟨c, hc⟩ := parse_args_defined prog tokens hok
    obtain ⟨_, fb, fs, fd⟩ := parse_args_fields prog tokens c hc
    refine ⟨c, hc, ?_, ?_, ?_⟩
    · intro hpos
      rw [hpos] at fb
      have e : parse_uint (d ++ [x]) = some c.block_size := fb
      rw [hu] at e
      exact (Option.some.inj e).symm
    · intro hpos
      rw [hpos] at fs
      have e : parse_uint (d ++ [x]) = some c.step_size := fs
      rw [hu] at e
      exact (Option.some.inj e).symm
    · intro hpos
      rw [hpos] at fd
      have e : parse_int (d ++ [x]) = some c.device_number := fd
      rw [hi] at e
      exact (Option.some.inj e).symm
  · intro prog prog2 tokens tokens2 hok hok2 hsame
    obtain ⟨c, hc⟩ := parse_args_defined prog tokens hok
    obtain ⟨c2, hc2⟩ := parse_args_defined prog2 tokens2 hok2
    obtain ⟨fp, _, _, _⟩ := parse_args_fields prog tokens c hc
    obtain ⟨fp2, _, _, _⟩ := parse_args_fields prog2 tokens2 c2 hc2
    rw [hsame, fp2] at fp
    exact ⟨c, c2, hc, hc2, (Option.some.inj fp).symm⟩

/-- C17, at the digit string `64` and the suffix `k`. -/
theorem suffix_scales_points_only_witness :
    IsDigits "64".toList ∧ decValue "64".toList ≤ 2 ^ 31 - 1 ∧ IsSuffixLetter 'k' ∧
    parse_uint ("64".toList ++ ['k']) = some (decValue "64".toList) ∧
    parse_int ("64".toList ++ ['k']) = some (decValue "64".toList : Int) :=
  have h := suffix_scales_points_only "64".toList 'k' (by decide) (by decide) (by decide)
  ⟨by decide, by decide, by decide, h.1, h.2.1⟩

end CuptiCpp
